import Mathlib

/-!
# Loudness scanner (`scanner.c`): batch analysis and interval streaming

A shallow embedding of `calculate_gain_of_file`, `loudness_or_lra`,
`interval_loudness`, `parse_interval` and `main` of `src/src/scanner.c`.

Modelling conventions

* `size_t` values are natural numbers; every `size_t` addition, subtraction and
  multiplication of the source is reduced modulo `SIZE_MOD = 2 ^ 64`.
* A C `double` is `double.nan` or `double.val q` with `q` rational: NaN is kept
  apart because the source uses it as the failure sentinel.  Samples of the
  decode buffer and the interval are ordinary values, hence rationals.  The
  arithmetic of line 224 (`frames_needed`) is rounded to IEEE 754 binary64,
  operation by operation; the subtraction `-18.0 - L` is exact (infinities are
  not modelled).
* The collaborators that are not part of `scanner.c` (the `ebur128` library, the
  input library of `input.h`) are parameters: a record of functions over an
  arbitrary session type `σ`, and one record per input file saying what the
  decoder does for that file.
* Functions with effects return the list of events they produced (library calls,
  lines on standard output) next to their result.
-/

namespace Scanner

/-! ## Machine arithmetic and doubles -/

/-- Number of values of `size_t`. -/
def SIZE_MOD : Nat := 2 ^ 64

/-- Addition of two `size_t` values. -/
def size_add (a b : Nat) : Nat := (a + b) % SIZE_MOD

/-- Subtraction of two `size_t` values (wraps below zero). -/
def size_sub (a b : Nat) : Nat := (a + (SIZE_MOD - b % SIZE_MOD)) % SIZE_MOD

/-- Multiplication of two `size_t` values. -/
def size_mul (a b : Nat) : Nat := (a * b) % SIZE_MOD

/-- A C `double`: NaN or an ordinary value. -/
inductive double where
  | nan : double
  | val (q : ℚ) : double
deriving DecidableEq

/-- Subtraction of doubles, `a - b`; NaN is absorbing. -/
def double.sub : double → double → double
  | double.val a, double.val b => double.val (a - b)
  | _, _ => double.nan

/-- The C test `x != x`, true exactly for NaN. -/
def double.ne_self : double → Bool
  | double.nan => true
  | double.val _ => false

/-- The channel roles passed to `ebur128_set_channel`. -/
inductive channel where
  | EBUR128_LEFT
  | EBUR128_RIGHT
  | EBUR128_CENTER
  | EBUR128_LEFT_SURROUND
  | EBUR128_RIGHT_SURROUND
deriving DecidableEq

/-! ## Collaborators -/

/-- The `ebur128` library (`ebur128.h`), over the contents `σ` of an
`ebur128_state`.  The mode constants of the header are fields of the record.
Functions that mutate the state through the pointer return the new contents;
the ones with an `int` result return it as second component. -/
structure ebur128 (σ : Type) where
  EBUR128_MODE_M : Nat
  EBUR128_MODE_S : Nat
  EBUR128_MODE_I : Nat
  EBUR128_MODE_LRA : Nat
  /-- `ebur128_init (channels, samplerate, mode)`; `none` is the NULL result. -/
  init : Nat → Nat → Nat → Option σ
  /-- The field `st->channels`. -/
  channels : σ → Nat
  /-- The field `st->samplerate`. -/
  samplerate : σ → Nat
  set_channel : σ → Nat → channel → σ
  change_parameters : σ → Nat → Nat → σ × Int
  /-- `ebur128_add_frames_float (st, src, frames)`; `src` is the buffer from the
  position the pointer designates. -/
  add_frames_float : σ → List ℚ → Nat → σ × Int
  loudness_momentary : σ → double
  loudness_shortterm : σ → double
  loudness_global : σ → double
  loudness_global_multiple : List σ → double
  loudness_range_multiple : List σ → double

/-- What the input library (`input.h`) does for one file: the result of each
call made on its handle.  `read_frames` lists the successive results of
`input_read_frames` together with the contents of the decode buffer after the
call; once the list is exhausted the call returns 0. -/
structure input_file (σ : Type) where
  name : String
  open_file : Int
  get_channels : Nat
  get_samplerate : Nat
  set_channel_map : σ → σ × Int
  allocate_buffer : Int
  read_frames : List (Nat × List ℚ)
  check_ok : Nat → Int

/-- Lines 63-69 and 216-222: the five `ebur128_set_channel` calls of the
five-channel special case, made when `input_set_channel_map` fails. -/
def channel_map_fallback {σ : Type} (lib : ebur128 σ) (result : Int) (st : σ) : σ :=
  if result ≠ 0 ∧ lib.channels st = 5 then
    lib.set_channel
      (lib.set_channel
        (lib.set_channel
          (lib.set_channel
            (lib.set_channel st 0 channel.EBUR128_LEFT)
            1 channel.EBUR128_RIGHT)
          2 channel.EBUR128_CENTER)
        3 channel.EBUR128_LEFT_SURROUND)
      4 channel.EBUR128_RIGHT_SURROUND
  else st

/-! ## `interval_loudness` -/

/-- Events of the streaming pipeline.  `add_frames c F n k r` is a call
`ebur128_add_frames_float (st, tmp_buffer, k)` with result `r`, made in a loop
iteration that started with `frames_counter = c`, `frames_needed = F` and
`nr_frames_read = n`; every iteration of the inner loop starts with exactly one
such call.  `reading v` is a line `printf ("%f\n", v)` on standard output,
`invalid_mode` the message of the `default` case. -/
inductive dump_event where
  | add_frames (frames_counter frames_needed nr_frames_read frames : Nat) (result : Int)
  | reading (v : double)
  | invalid_mode
deriving DecidableEq

/-- Variables of the inner loop (lines 231-261). -/
structure chunk_state (σ : Type) where
  st : σ
  tmp_buffer : List ℚ
  nr_frames_read : Nat
  frames_counter : Nat

/-- How one pass through the body of the inner loop ends: back at the loop
test, or at the label `free_buffer` (with `errcode` set to 1 or left alone). -/
inductive outcome (σ : Type) where
  | next (s : chunk_state σ)
  | free_buffer (st : σ) (frames_counter : Nat) (set_errcode : Bool)
  | out_of_fuel

/-- Rounding of a rational to the nearest integer, ties to the even one. -/
def round_even (x : ℚ) : ℤ :=
  if x - ⌊x⌋ < 1 / 2 then ⌊x⌋
  else if 1 / 2 < x - ⌊x⌋ then ⌊x⌋ + 1
  else if ⌊x⌋ % 2 = 0 then ⌊x⌋ else ⌊x⌋ + 1

/-- Exponent of the binade of `q` in IEEE 754 binary64: the greatest `e` with
`2 ^ e ≤ |q|`, and -1022 for the subnormal range. -/
def double_exponent (q : ℚ) : ℤ := max (Int.log 2 |q|) (-1022)

/-- The result of a `double` operation whose exact result is `q`: the binary64
value nearest to `q`, ties to even (53 significant bits; values beyond the
largest double are left as they are, they are out of the range of `size_t`
anyway). -/
def round_double (q : ℚ) : ℚ :=
  (round_even (q / 2 ^ (double_exponent q - 52)) : ℚ) * 2 ^ (double_exponent q - 52)

/-- The `double` value of `gd->interval * (double) st->samplerate + 0.5` in line
224: the conversion of the sample rate, the product and the sum are each
rounded. -/
def double_sum (interval : ℚ) (samplerate : Nat) : ℚ :=
  round_double (round_double (interval * round_double (samplerate : ℚ)) + 1 / 2)

/-- Line 224: `(size_t) (gd->interval * (double) st->samplerate + 0.5)`, the
conversion truncating toward zero.  C leaves the conversion of a value outside
the range of `size_t` undefined; the result is 0 here. -/
def frames_needed (interval : ℚ) (samplerate : Nat) : Nat :=
  if double_sum interval samplerate < (SIZE_MOD : ℚ) then
    Int.toNat ⌊double_sum interval samplerate⌋
  else 0

/-- Lines 232-260: one iteration of the inner loop, entered with
`nr_frames_read > 0`. -/
def interval_iteration {σ : Type} (lib : ebur128 σ) (mode : Nat) (F : Nat)
    (s : chunk_state σ) : outcome σ × List dump_event :=
  if F ≤ size_add s.frames_counter s.nr_frames_read then
    let k := size_sub F s.frames_counter
    let r := lib.add_frames_float s.st s.tmp_buffer k
    let fed := dump_event.add_frames s.frames_counter F s.nr_frames_read k r.2
    if r.2 ≠ 0 then (outcome.free_buffer r.1 s.frames_counter true, [fed])
    else
      let s1 : chunk_state σ :=
        ⟨r.1, s.tmp_buffer.drop (size_mul k (lib.channels r.1)),
          size_sub s.nr_frames_read k, 0⟩
      if mode = lib.EBUR128_MODE_M then
        (outcome.next s1, [fed, dump_event.reading (lib.loudness_momentary r.1)])
      else if mode = lib.EBUR128_MODE_S then
        (outcome.next s1, [fed, dump_event.reading (lib.loudness_shortterm r.1)])
      else if mode = lib.EBUR128_MODE_I then
        (outcome.next s1, [fed, dump_event.reading (lib.loudness_global r.1)])
      else (outcome.free_buffer r.1 0 false, [fed, dump_event.invalid_mode])
  else
    let r := lib.add_frames_float s.st s.tmp_buffer s.nr_frames_read
    let fed := dump_event.add_frames s.frames_counter F s.nr_frames_read s.nr_frames_read r.2
    if r.2 ≠ 0 then (outcome.free_buffer r.1 s.frames_counter true, [fed])
    else
      (outcome.next
        ⟨r.1, s.tmp_buffer.drop (size_mul s.nr_frames_read (lib.channels r.1)), 0,
          size_add s.frames_counter s.nr_frames_read⟩, [fed])

/-- Lines 231-261: the loop `while (nr_frames_read > 0)`, run for at most `fuel`
iterations.  The events are those produced so far, also when the fuel runs
out. -/
def interval_chunk {σ : Type} (lib : ebur128 σ) (mode : Nat) (F : Nat) :
    Nat → chunk_state σ → outcome σ × List dump_event
  | fuel, s =>
    if s.nr_frames_read = 0 then (outcome.next s, [])
    else
      match fuel with
      | 0 => (outcome.out_of_fuel, [])
      | fuel + 1 =>
        match interval_iteration lib mode F s with
        | (outcome.next s1, tr) =>
          ((interval_chunk lib mode F fuel s1).1, tr ++ (interval_chunk lib mode F fuel s1).2)
        | (o, tr) => (o, tr)

/-- Variables of `interval_loudness` that live across files. -/
structure dump_state (σ : Type) where
  st : Option σ
  frames_counter : Nat
  errcode : Int

/-- Lines 229-262: the loop over the results of `input_read_frames`, followed
by the state at the label `free_buffer`.  `none` means the inner loop did not
finish within `fuel` iterations. -/
def interval_reads {σ : Type} (lib : ebur128 σ) (mode : Nat) (F : Nat) (fuel : Nat) :
    List (Nat × List ℚ) → σ → Nat → Int → Option (dump_state σ) × List dump_event
  | [], st, c, e => (some ⟨some st, c, e⟩, [])
  | (n, buffer) :: rest, st, c, e =>
    if n = 0 then (some ⟨some st, c, e⟩, [])
    else
      match interval_chunk lib mode F fuel ⟨st, buffer, n, c⟩ with
      | (outcome.next s1, tr) =>
        ((interval_reads lib mode F fuel rest s1.st s1.frames_counter e).1,
          tr ++ (interval_reads lib mode F fuel rest s1.st s1.frames_counter e).2)
      | (outcome.free_buffer st1 c1 set_errcode, tr) =>
        (some ⟨some st1, c1, if set_errcode then 1 else e⟩, tr)
      | (outcome.out_of_fuel, tr) => (none, tr)

/-- Lines 201-211: create the session for the first file that gets this far,
adapt it for every later one.  The result is the session and the frame
counter, or `none` when `ebur128_init` returned NULL. -/
def interval_session {σ : Type} (lib : ebur128 σ) (mode : Nat) (f : input_file σ)
    (s : dump_state σ) : Option (σ × Nat) :=
  match s.st with
  | none =>
    match lib.init f.get_channels f.get_samplerate mode with
    | none => none
    | some st => some (st, s.frames_counter)
  | some st =>
    let r := lib.change_parameters st f.get_channels f.get_samplerate
    some (r.1, if r.2 = 0 then 0 else s.frames_counter)

/-- Lines 196-268: the body of the loop over the files. -/
def interval_file {σ : Type} (lib : ebur128 σ) (interval : ℚ) (mode : Nat) (fuel : Nat)
    (f : input_file σ) (s : dump_state σ) : Option (dump_state σ) × List dump_event :=
  if f.open_file ≠ 0 then (some ⟨s.st, s.frames_counter, 1⟩, [])
  else
    match interval_session lib mode f s with
    | none => (some ⟨none, s.frames_counter, 1⟩, [])
    | some (st0, c) =>
      let m := f.set_channel_map st0
      let st := channel_map_fallback lib m.2 m.1
      let F := frames_needed interval (lib.samplerate st)
      if f.allocate_buffer ≠ 0 then (some ⟨some st, c, 1⟩, [])
      else interval_reads lib mode F fuel f.read_frames st c s.errcode

/-- Lines 195-269: the loop over the files. -/
def interval_files {σ : Type} (lib : ebur128 σ) (interval : ℚ) (mode : Nat) (fuel : Nat) :
    List (input_file σ) → dump_state σ → Option (dump_state σ) × List dump_event
  | [], s => (some s, [])
  | f :: rest, s =>
    match interval_file lib interval mode fuel f s with
    | (some s1, tr) =>
      ((interval_files lib interval mode fuel rest s1).1,
        tr ++ (interval_files lib interval mode fuel rest s1).2)
    | (none, tr) => (none, tr)

/-- The global `struct gain_data`.  The three arrays are functions of the index;
`errcode` is `none` while its value is indeterminate; `interval` is the value
of the `double`. -/
structure gain_data (σ : Type) where
  file_names : Nat → input_file σ
  calculate_lra : Bool
  tag_rg : Bool
  errcode : Option Int
  interval : ℚ
  mode : Nat
  library_states : Nat → Option σ
  segment_loudness : Nat → double
  segment_peaks : Nat → ℚ

/-- The function `interval_loudness (gd, no_files)`: its return value (`none`
when it does not return within the fuel) and its events.  `init_library` is the
result of `input_init_library`. -/
def interval_loudness {σ : Type} (lib : ebur128 σ) (init_library : Int) (fuel : Nat)
    (gd : gain_data σ) (no_files : Nat) : Option Int × List dump_event :=
  if init_library ≠ 0 then (some 1, [])
  else
    let r := interval_files lib gd.interval gd.mode fuel
      ((List.range no_files).map gd.file_names) ⟨none, 0, 0⟩
    (r.1.map (fun s => s.errcode), r.2)

/-! ## `calculate_gain_of_file` -/

/-- Lines 79-82: the update of `segment_peaks[i]` for one sample `buffer[j]`. -/
def peak_sample (peak : ℚ) (x : ℚ) : ℚ :=
  if x > peak then x else if -x > peak then -x else peak

/-- Lines 78-83: the loop over `buffer[0 .. count - 1]`. -/
def peak_scan (peak : ℚ) (buffer : List ℚ) (count : Nat) : ℚ :=
  (buffer.take count).foldl peak_sample peak

/-- Variables of the read loop of `calculate_gain_of_file` when it is left;
`failed` says it was left through `CHECK_ERROR`. -/
structure gain_loop (σ : Type) where
  st : σ
  peak : ℚ
  nr_frames_read_all : Nat
  failed : Bool

/-- Lines 75-88: the loop over the results of `input_read_frames`. -/
def gain_reads {σ : Type} (lib : ebur128 σ) (tag_rg : Bool) :
    List (Nat × List ℚ) → σ → ℚ → Nat → gain_loop σ
  | [], st, peak, all => ⟨st, peak, all, false⟩
  | (n, buffer) :: rest, st, peak, all =>
    if n = 0 then ⟨st, peak, all, false⟩
    else
      let peak1 := if tag_rg then peak_scan peak buffer (size_mul n (lib.channels st)) else peak
      let r := lib.add_frames_float st buffer n
      if r.2 ≠ 0 then ⟨r.1, peak1, size_add all n, true⟩
      else gain_reads lib tag_rg rest r.1 peak1 (size_add all n)

/-- The job `calculate_gain_of_file` for index `i` (the source receives
`i + 1` as `user`).  `library_states[i]` is a pointer to the session the job
goes on mutating, so the slot is given the session as the job leaves it.
Messages on the diagnostic channel are not recorded. -/
def calculate_gain_of_file {σ : Type} (lib : ebur128 σ) (gd : gain_data σ) (i : Nat) :
    gain_data σ :=
  let f := gd.file_names i
  let gd1 := { gd with segment_loudness := Function.update gd.segment_loudness i double.nan }
  if f.open_file ≠ 0 then { gd1 with errcode := some 1 }
  else
    match lib.init f.get_channels f.get_samplerate
        (lib.EBUR128_MODE_I ||| (if gd.calculate_lra then lib.EBUR128_MODE_LRA else 0)) with
    | none => { gd1 with errcode := some 1 }
    | some st0 =>
      let m := f.set_channel_map st0
      let st := channel_map_fallback lib m.2 m.1
      if f.allocate_buffer ≠ 0 then
        { gd1 with
          library_states := Function.update gd.library_states i (some st)
          errcode := some 1 }
      else
        let r := gain_reads lib gd.tag_rg f.read_frames st 0 0
        if r.failed then
          { gd1 with
            library_states := Function.update gd.library_states i (some r.st)
            segment_peaks := Function.update gd.segment_peaks i r.peak
            errcode := some 1 }
        else
          { gd1 with
            library_states := Function.update gd.library_states i (some r.st)
            segment_peaks := Function.update gd.segment_peaks i r.peak
            segment_loudness := Function.update gd.segment_loudness i (lib.loudness_global r.st)
            errcode := none }

/-! ## `loudness_or_lra` -/

/-- Events of the batch pipeline.  `segment i v` is the line
`segment i: v LUFS` of the diagnostic channel, `global_loudness v` the call of
`ebur128_loudness_global_multiple` with result `v`, `loudness_range v` the call
of `ebur128_loudness_range_multiple`, `stdout_line` the line of four numbers on
standard output, `set_rg_info` the call of the tag writer and `destroy i` the
call `ebur128_destroy (&gd->library_states[i])`. -/
inductive scan_event where
  | segment (i : Nat) (v : double)
  | global_loudness (v : double)
  | loudness_range (v : double)
  | stdout_line (track_gain : double) (track_peak : ℚ) (album_gain : double) (album_peak : ℚ)
  | set_rg_info (name : String) (track_gain : double) (track_peak : ℚ) (album : Int)
      (album_gain : double) (album_peak : ℚ)
  | destroy (i : Nat)
deriving DecidableEq

/-- Lines 115-121: the thread pool runs the pushed jobs, here one after the
other in the order `schedule` (a permutation of `0 .. no_files - 1`), and is
joined. -/
def run_pool {σ : Type} (lib : ebur128 σ) (schedule : List Nat) (gd : gain_data σ) :
    gain_data σ :=
  schedule.foldl (calculate_gain_of_file lib) gd

/-- Lines 122-131: the segment lines, printed when `segment_loudness[i]` differs
from itself. -/
def segment_lines {σ : Type} (gd : gain_data σ) (no_files : Nat) : List scan_event :=
  if no_files > 1 then
    ((List.range no_files).filter (fun i => (gd.segment_loudness i).ne_self)).map
      (fun i => scan_event.segment (i + 1) (gd.segment_loudness i))
  else []

/-- Lines 133-138: the gate, `result` after the loop. -/
def all_states {σ : Type} (gd : gain_data σ) (no_files : Nat) : Bool :=
  (List.range no_files).all (fun i => (gd.library_states i).isSome)

/-- Lines 153-158: `global_peak` after the loop. -/
def global_peak {σ : Type} (gd : gain_data σ) (no_files : Nat) : ℚ :=
  (List.range no_files).foldl
    (fun peak i => if gd.segment_peaks i > peak then gd.segment_peaks i else peak) 0

/-- Lines 159-169: the output line and the tag write of every file. -/
def tag_files {σ : Type} (gd : gain_data σ) (no_files : Nat) (gated_loudness : double) :
    List scan_event :=
  (List.range no_files).flatMap (fun i =>
    [scan_event.stdout_line
        (double.sub (double.val (-18)) (gd.segment_loudness i)) (gd.segment_peaks i)
        (double.sub (double.val (-18)) gated_loudness) (global_peak gd no_files),
      scan_event.set_rg_info (gd.file_names i).name
        (double.sub (double.val (-18)) (gd.segment_loudness i)) (gd.segment_peaks i)
        1
        (double.sub (double.val (-18)) gated_loudness) (global_peak gd no_files)])

/-- Lines 140-171: what is computed and written behind the gate. -/
def gated_part {σ : Type} (lib : ebur128 σ) (gd : gain_data σ) (no_files : Nat) :
    List scan_event :=
  if all_states gd no_files then
    let states := (List.range no_files).filterMap gd.library_states
    let gated_loudness := lib.loudness_global_multiple states
    [scan_event.global_loudness gated_loudness]
      ++ (if gd.calculate_lra then
            [scan_event.loudness_range (lib.loudness_range_multiple states)]
          else [])
      ++ (if gd.tag_rg then tag_files gd no_files gated_loudness else [])
  else []

/-- Lines 173-177: the sessions that are destroyed. -/
def destroy_states {σ : Type} (gd : gain_data σ) (no_files : Nat) : List scan_event :=
  ((List.range no_files).filter (fun i => (gd.library_states i).isSome)).map
    scan_event.destroy

/-- The function `loudness_or_lra (gd, no_files)`: its return value, the arrays
as the pool left them, and its events. -/
def loudness_or_lra {σ : Type} (lib : ebur128 σ) (init_library : Int) (schedule : List Nat)
    (gd : gain_data σ) (no_files : Nat) : Int × gain_data σ × List scan_event :=
  if init_library ≠ 0 then (1, gd, [])
  else
    let gd1 := run_pool lib schedule gd
    (0, gd1, segment_lines gd1 no_files ++ gated_part lib gd1 no_files
      ++ destroy_states gd1 no_files)

/-! ## `parse_interval` and `main` -/

/-- The option callback `parse_interval`; `atof_value` is `atof (value)`.  The
result is the returned flag and the global `gd` after the call; the warnings
on the diagnostic channel are not recorded. -/
def parse_interval {σ : Type} (lib : ebur128 σ) (gd : gain_data σ) (option_name : String)
    (atof_value : ℚ) : Bool × gain_data σ :=
  if gd.mode ≠ 0 then (false, gd)
  else
    let gd1 := { gd with interval := atof_value }
    if atof_value ≤ 0 then (false, gd1)
    else if option_name = "-m" ∨ option_name = "--momentary" then
      (true, { gd1 with mode := lib.EBUR128_MODE_M })
    else if option_name = "-s" ∨ option_name = "--shortterm" then
      (true, { gd1 with mode := lib.EBUR128_MODE_S })
    else if option_name = "-i" ∨ option_name = "--integrated" then
      (true, { gd1 with mode := lib.EBUR128_MODE_I })
    else (false, gd1)

/-- The function `main` from line 352 on, after the options were parsed into
`gd`: `error` says the parser reported an error, `have_file_names` that
`gd.file_names` is not NULL, `ac` is the number of file names.  The result is
the exit status (`none` when the run does not end within the fuel) and the
events of the pipeline that ran. -/
def main {σ : Type} (lib : ebur128 σ) (error : Bool) (have_file_names : Bool) (ac : Nat)
    (init_library : Int) (schedule : List Nat) (fuel : Nat) (gd : gain_data σ) :
    Option Int × List dump_event × List scan_event :=
  if error then (some 1, [], [])
  else if !have_file_names then (some 1, [], [])
  else if gd.interval > 0 then
    let r := interval_loudness lib init_library fuel gd ac
    (r.1.map (fun _ => 0), r.2, [])
  else
    let gd0 := { gd with
      segment_loudness := fun _ => double.val 0
      segment_peaks := fun _ => 0
      library_states := fun _ => none }
    let r := loudness_or_lra lib init_library schedule gd0 ac
    (some (if r.1 ≠ 0 then 1 else 0), [], r.2.2)

/-! ## Observations on event lists -/

/-- The mode is one of the three the `switch` of line 239 knows. -/
def valid_mode {σ : Type} (lib : ebur128 σ) (mode : Nat) : Prop :=
  mode = lib.EBUR128_MODE_M ∨ mode = lib.EBUR128_MODE_S ∨ mode = lib.EBUR128_MODE_I

instance {σ : Type} (lib : ebur128 σ) (mode : Nat) : Decidable (valid_mode lib mode) := by
  unfold valid_mode
  infer_instance

/-- The event is a reading printed on standard output. -/
def dump_event.is_reading : dump_event → Bool
  | dump_event.reading _ => true
  | _ => false

/-- Number of readings printed by a run with the events `tr`. -/
def emissions (tr : List dump_event) : Nat := tr.countP dump_event.is_reading

/-- Sum of the frame counts passed to `ebur128_add_frames_float` in `tr`. -/
def fed_frames : List dump_event → Nat
  | [] => 0
  | dump_event.add_frames _ _ _ k _ :: tr => k + fed_frames tr
  | _ :: tr => fed_frames tr

/-- The feed of a loop iteration is in bounds: the iteration started with the
counter below `frames_needed`, the frame count passed is at least 1 and at most
the frames remaining in the chunk, and a boundary-closing feed passes exactly
the frames missing to the boundary. -/
def feed_in_bounds : dump_event → Prop
  | dump_event.add_frames c F n k _ =>
    c < F ∧ 1 ≤ k ∧ k ≤ n ∧ (F ≤ size_add c n → c + k = F)
  | _ => True

instance (ev : dump_event) : Decidable (feed_in_bounds ev) := by
  cases ev <;> unfold feed_in_bounds <;> infer_instance

/-- The counter a loop iteration leaves behind is below `F`, and the session
still has the sample rate `rate`. -/
def outcome_below {σ : Type} (lib : ebur128 σ) (F rate : Nat) : outcome σ → Prop
  | outcome.next s => s.frames_counter < F ∧ lib.samplerate s.st = rate
  | outcome.free_buffer st c _ => c < F ∧ lib.samplerate st = rate
  | outcome.out_of_fuel => True

/-- Between two files the counter is below the `frames_needed` of the session
as it stands, and 0 while there is no session. -/
def counter_below {σ : Type} (lib : ebur128 σ) (interval : ℚ) (s : dump_state σ) : Prop :=
  match s.st with
  | none => s.frames_counter = 0
  | some st => s.frames_counter < frames_needed interval (lib.samplerate st)

/-- The samples of a chunk that the peak loop of line 78 visits, for a session
of `channels` channels: `buffer[0 .. nr_frames_read * channels - 1]`. -/
def chunk_samples (channels : Nat) (r : Nat × List ℚ) : List ℚ :=
  r.2.take (size_mul r.1 channels)

/-- The three result slots of index `j`. -/
def slot {σ : Type} (gd : gain_data σ) (j : Nat) : Option σ × double × ℚ :=
  (gd.library_states j, gd.segment_loudness j, gd.segment_peaks j)

/-- Two values of `gd` have the same file names and flags. -/
def same_setup {σ : Type} (gd gd1 : gain_data σ) : Prop :=
  gd1.file_names = gd.file_names ∧ gd1.calculate_lra = gd.calculate_lra ∧
    gd1.tag_rg = gd.tag_rg

/-- No event follows an `invalid_mode` message in `tr`. -/
def nothing_after_invalid : List dump_event → Bool
  | [] => true
  | dump_event.invalid_mode :: tr => tr.isEmpty
  | _ :: tr => nothing_after_invalid tr

/-! ## Concrete collaborators for the examples -/

/-- A library whose session counts the frames fed so far: two channels,
48 kHz, every call succeeds, `ebur128_change_parameters` returns
`change_result`, every reading is -23. -/
def counting_lib (change_result : Int) : ebur128 Nat where
  EBUR128_MODE_M := 1
  EBUR128_MODE_S := 3
  EBUR128_MODE_I := 5
  EBUR128_MODE_LRA := 11
  init := fun _ _ _ => some 0
  channels := fun _ => 2
  samplerate := fun _ => 48000
  set_channel := fun st _ _ => st
  change_parameters := fun st _ _ => (st, change_result)
  add_frames_float := fun st _ k => (st + k, 0)
  loudness_momentary := fun _ => double.val (-23)
  loudness_shortterm := fun _ => double.val (-23)
  loudness_global := fun _ => double.val (-23)
  loudness_global_multiple := fun _ => double.val (-23)
  loudness_range_multiple := fun _ => double.val 10

/-- A file that opens, has a channel map and a buffer, and delivers the chunks
`reads`. -/
def plain_file (name : String) (reads : List (Nat × List ℚ)) : input_file Nat where
  name := name
  open_file := 0
  get_channels := 2
  get_samplerate := 48000
  set_channel_map := fun st => (st, 0)
  allocate_buffer := 0
  read_frames := reads
  check_ok := fun _ => 0

/-- The global `gd` as `main` initialises it, with the given files, interval
and mode. -/
def plain_gd (files : Nat → input_file Nat) (interval : ℚ) (mode : Nat) : gain_data Nat where
  file_names := files
  calculate_lra := false
  tag_rg := false
  errcode := none
  interval := interval
  mode := mode
  library_states := fun _ => none
  segment_loudness := fun _ => double.val 0
  segment_peaks := fun _ => 0

/-- A file the decoder cannot open. -/
def unreadable_file (name : String) : input_file Nat where
  name := name
  open_file := 1
  get_channels := 0
  get_samplerate := 0
  set_channel_map := fun st => (st, 0)
  allocate_buffer := 0
  read_frames := []
  check_ok := fun _ => 0

/-- A file that opens but for which `input_allocate_buffer` fails. -/
def unbuffered_file (name : String) : input_file Nat where
  name := name
  open_file := 0
  get_channels := 2
  get_samplerate := 48000
  set_channel_map := fun st => (st, 0)
  allocate_buffer := 1
  read_frames := []
  check_ok := fun _ => 0

/-- The global `gd` of a batch run with tagging requested. -/
def tagging_gd (files : Nat → input_file Nat) : gain_data Nat where
  file_names := files
  calculate_lra := false
  tag_rg := true
  errcode := none
  interval := 0
  mode := 0
  library_states := fun _ => none
  segment_loudness := fun _ => double.val 0
  segment_peaks := fun _ => 0

/-- Two files: `a.wav` is analysed without error, for `b.wav` the decode
buffer cannot be allocated. -/
def one_unbuffered (i : Nat) : input_file Nat :=
  if i = 0 then plain_file "a.wav" [(1, [1 / 2, -3 / 4])] else unbuffered_file "b.wav"

/-- Two files: `a.wav` is analysed without error, `b.wav` cannot be opened. -/
def one_unreadable (i : Nat) : input_file Nat :=
  if i = 0 then plain_file "a.wav" [(1, [1 / 2, -3 / 4])] else unreadable_file "b.wav"

/-! ## Theorems -/

/-! ### Rounding to `double` and `frames_needed` -/

theorem double_exponent_eq (q : ℚ) (e : ℤ) (he : -1022 ≤ e) (h1 : (2 : ℚ) ^ e ≤ q)
    (h2 : q < (2 : ℚ) ^ (e + 1)) : double_exponent q = e := by
  unfold double_exponent
  have hq : 0 < q := lt_of_lt_of_le (zpow_pos (by norm_num) e) h1
  rw [abs_of_pos hq]
  have hpos : 0 < q := hq
  have ha : e ≤ Int.log 2 q := (Int.zpow_le_iff_le_log (by norm_num) hpos).mp (by exact_mod_cast h1)
  have hb : Int.log 2 q < e + 1 := (Int.lt_zpow_iff_log_lt (by norm_num) hpos).mp (by exact_mod_cast h2)
  omega

theorem round_even_int (m : ℤ) : round_even (m : ℚ) = m := by
  unfold round_even
  simp

theorem round_even_up (x : ℚ) (f : ℤ) (h1 : (f : ℚ) + 1 / 2 < x) (h2 : x < f + 1) :
    round_even x = f + 1 := by
  have hf : ⌊x⌋ = f := by
    rw [Int.floor_eq_iff]
    constructor <;> linarith
  unfold round_even
  rw [hf]
  rw [if_neg (by linarith), if_pos (by linarith)]

/-- A value `m * 2 ^ (e - 52)` of the binade `e` is a double. -/
theorem round_double_exact (q : ℚ) (e m : ℤ) (he : -1022 ≤ e) (h1 : (2 : ℚ) ^ e ≤ q)
    (h2 : q < (2 : ℚ) ^ (e + 1)) (hm : q = (m : ℚ) * 2 ^ (e - 52)) : round_double q = q := by
  unfold round_double
  rw [double_exponent_eq q e he h1 h2]
  have hu : (2 : ℚ) ^ (e - 52) ≠ 0 := zpow_ne_zero _ (by norm_num)
  have : q / 2 ^ (e - 52) = (m : ℚ) := by
    rw [hm]
    field_simp
  rw [this, round_even_int, hm]

theorem round_double_zero : round_double 0 = 0 := by
  unfold round_double
  simp [round_even]

theorem round_even_le (x : ℚ) (n : ℤ) (h : x ≤ n) : round_even x ≤ n := by
  have hf : ⌊x⌋ ≤ n := Int.floor_le_iff.mpr (by linarith [Int.floor_le x])
  have hfx : (⌊x⌋ : ℚ) ≤ x := Int.floor_le x
  unfold round_even
  rcases lt_or_eq_of_le hf with hlt | heq
  · split_ifs <;> omega
  · have hx : x - ⌊x⌋ < 1 / 2 := by
      rw [heq]
      linarith
    rw [if_pos hx]
    exact hf

theorem round_even_nonneg (x : ℚ) (h : 0 ≤ x) : 0 ≤ round_even x := by
  have hf : 0 ≤ ⌊x⌋ := Int.floor_nonneg.mpr h
  unfold round_even
  split_ifs <;> omega

theorem round_double_nonneg (q : ℚ) (h : 0 ≤ q) : 0 ≤ round_double q := by
  unfold round_double
  have hu : (0 : ℚ) < 2 ^ (double_exponent q - 52) := zpow_pos (by norm_num) _
  have hx : 0 ≤ round_even (q / 2 ^ (double_exponent q - 52)) :=
    round_even_nonneg _ (div_nonneg h (le_of_lt hu))
  have : (0 : ℚ) ≤ (round_even (q / 2 ^ (double_exponent q - 52)) : ℚ) := by exact_mod_cast hx
  exact mul_nonneg this (le_of_lt hu)

/-- Rounding does not leave the binade upward. -/
theorem round_double_le_binade (q : ℚ) (hq : 0 < q) :
    q < 2 ^ (double_exponent q + 1) ∧ round_double q ≤ 2 ^ (double_exponent q + 1) := by
  have hlog : Int.log 2 q ≤ double_exponent q := by
    unfold double_exponent
    rw [abs_of_pos hq]
    exact le_max_left _ _
  have h1 : q < (2 : ℚ) ^ (Int.log 2 q + 1) := by
    have := Int.lt_zpow_succ_log_self (b := 2) (by norm_num) q
    exact_mod_cast this
  have h2 : (2 : ℚ) ^ (Int.log 2 q + 1) ≤ 2 ^ (double_exponent q + 1) :=
    zpow_le_zpow_right₀ (by norm_num) (by omega)
  have h3 : q < 2 ^ (double_exponent q + 1) := lt_of_lt_of_le h1 h2
  refine ⟨h3, ?_⟩
  unfold round_double
  have hu : (0 : ℚ) < 2 ^ (double_exponent q - 52) := zpow_pos (by norm_num) _
  have hsplit : (2 : ℚ) ^ (double_exponent q + 1) = 2 ^ (53 : ℤ) * 2 ^ (double_exponent q - 52) := by
    rw [← zpow_add₀ (by norm_num)]
    congr 1
    omega
  have hx : q / 2 ^ (double_exponent q - 52) ≤ ((2 ^ 53 : ℤ) : ℚ) := by
    rw [div_le_iff₀ hu]
    have : ((2 ^ 53 : ℤ) : ℚ) = 2 ^ (53 : ℤ) := by norm_num
    rw [this, ← hsplit]
    exact le_of_lt h3
  have hr := round_even_le _ _ hx
  have hr2 : (round_even (q / 2 ^ (double_exponent q - 52)) : ℚ) ≤ 2 ^ (53 : ℤ) := by
    have e53 : ((2 ^ 53 : ℤ) : ℚ) = 2 ^ (53 : ℤ) := by norm_num
    rw [← e53]
    exact_mod_cast hr
  rw [hsplit]
  exact mul_le_mul_of_nonneg_right hr2 (le_of_lt hu)

/-- Rounding up to a double of the same binade: a value of the binade `e` that
is at most `n * 2 ^ (e - 52)` rounds to at most that. -/
theorem round_double_le_of_le (q : ℚ) (e n : ℤ) (he : -1022 ≤ e) (h1 : (2 : ℚ) ^ e ≤ q)
    (h2 : q < (2 : ℚ) ^ (e + 1)) (hn : q ≤ (n : ℚ) * 2 ^ (e - 52)) :
    round_double q ≤ (n : ℚ) * 2 ^ (e - 52) := by
  unfold round_double
  rw [double_exponent_eq q e he h1 h2]
  have hu : (0 : ℚ) < 2 ^ (e - 52) := zpow_pos (by norm_num) _
  have hx : q / 2 ^ (e - 52) ≤ (n : ℚ) := by
    rw [div_le_iff₀ hu]
    exact hn
  have hr := round_even_le _ _ hx
  have hr2 : (round_even (q / 2 ^ (e - 52)) : ℚ) ≤ (n : ℚ) := by exact_mod_cast hr
  exact mul_le_mul_of_nonneg_right hr2 (le_of_lt hu)

theorem round_double_below_half (q : ℚ) (h0 : 0 ≤ q) (h : q ≤ 1 / 2 - 1 / 2 ^ 53) :
    0 ≤ round_double q ∧ round_double q ≤ 1 / 2 - 1 / 2 ^ 53 := by
  refine ⟨round_double_nonneg q h0, ?_⟩
  rcases eq_or_lt_of_le h0 with hz | hpos
  · rw [← hz, round_double_zero]
    norm_num
  · by_cases hq : q < 1 / 4
    · obtain ⟨_, h2⟩ := round_double_le_binade q hpos
      have hlog : Int.log 2 q < -2 := by
        apply (Int.lt_zpow_iff_log_lt (by norm_num) hpos).mp
        norm_num
        linarith
      have he : double_exponent q + 1 ≤ -2 := by
        unfold double_exponent
        rw [abs_of_pos hpos]
        have : max (Int.log 2 q) (-1022) ≤ -3 := max_le (by omega) (by norm_num)
        omega
      have h3 : (2 : ℚ) ^ (double_exponent q + 1) ≤ 2 ^ (-2 : ℤ) :=
        zpow_le_zpow_right₀ (by norm_num) he
      have h4 : (2 : ℚ) ^ (-2 : ℤ) ≤ 1 / 2 - 1 / 2 ^ 53 := by norm_num
      exact le_trans h2 (le_trans h3 h4)
    · have := round_double_le_of_le q (-2) (2 ^ 53 - 2) (by norm_num) (by norm_num; linarith)
        (by norm_num; linarith) (by norm_num; linarith)
      norm_num at this ⊢
      linarith

/-- A sample rate below `2 ^ 53` converts to `double` without rounding. -/
theorem round_double_nat (n : Nat) (h : n < 2 ^ 53) : round_double (n : ℚ) = n := by
  rcases Nat.eq_zero_or_pos n with h0 | hpos
  · subst h0
    simpa using round_double_zero
  · have hk : Nat.log 2 n < 53 := Nat.log_lt_of_lt_pow (Nat.ne_of_gt hpos) h
    have he : double_exponent (n : ℚ) = (Nat.log 2 n : ℤ) := by
      unfold double_exponent
      rw [abs_of_nonneg (Nat.cast_nonneg n), Int.log_natCast]
      omega
    have hpow : (2 : ℚ) ^ ((Nat.log 2 n : ℤ) - 52) * 2 ^ (52 - Nat.log 2 n) = 1 := by
      rw [← zpow_natCast, ← zpow_add₀ (by norm_num)]
      have : ((Nat.log 2 n : ℤ) - 52) + ((52 - Nat.log 2 n : ℕ) : ℤ) = 0 := by omega
      rw [this, zpow_zero]
    have hu : (2 : ℚ) ^ ((Nat.log 2 n : ℤ) - 52) ≠ 0 := zpow_ne_zero _ (by norm_num)
    have hx : (n : ℚ) / 2 ^ ((Nat.log 2 n : ℤ) - 52)
        = (((n * 2 ^ (52 - Nat.log 2 n) : ℕ) : ℤ) : ℚ) := by
      rw [div_eq_iff hu]
      push_cast
      rw [mul_assoc, mul_comm ((2 : ℚ) ^ (52 - Nat.log 2 n)), hpow, mul_one]
    unfold round_double
    rw [he, hx, round_even_int, ← hx]
    field_simp

theorem frames_needed_lt (interval : ℚ) (rate : Nat) : frames_needed interval rate < SIZE_MOD := by
  unfold frames_needed
  split_ifs with h
  · by_cases hs : 0 ≤ double_sum interval rate
    · have h1 : (⌊double_sum interval rate⌋ : ℚ) < (SIZE_MOD : ℚ) :=
        lt_of_le_of_lt (Int.floor_le _) h
      have h2 : (0 : ℤ) ≤ ⌊double_sum interval rate⌋ := Int.floor_nonneg.mpr hs
      have h3 : ⌊double_sum interval rate⌋ < (SIZE_MOD : ℤ) := by exact_mod_cast h1
      omega
    · have h2 : ⌊double_sum interval rate⌋ < 0 := Int.floor_lt.mpr (by push_cast; linarith)
      have : Int.toNat ⌊double_sum interval rate⌋ = 0 := Int.toNat_eq_zero.mpr (le_of_lt h2)
      rw [this]
      unfold SIZE_MOD
      positivity
  · unfold SIZE_MOD
    positivity

/-- `frames_needed` is the integer part of the `double` sum, when that sum is
in the range of `size_t`. -/
theorem frames_needed_floor (interval : ℚ) (rate : Nat) (h0 : 0 ≤ double_sum interval rate)
    (h1 : double_sum interval rate < (SIZE_MOD : ℚ)) :
    (frames_needed interval rate : ℚ) ≤ double_sum interval rate ∧
      double_sum interval rate < (frames_needed interval rate : ℚ) + 1 := by
  unfold frames_needed
  rw [if_pos h1]
  have hf : (0 : ℤ) ≤ ⌊double_sum interval rate⌋ := Int.floor_nonneg.mpr h0
  have hc : ((Int.toNat ⌊double_sum interval rate⌋ : ℕ) : ℚ)
      = ((⌊double_sum interval rate⌋ : ℤ) : ℚ) := by
    have : ((Int.toNat ⌊double_sum interval rate⌋ : ℕ) : ℤ) = ⌊double_sum interval rate⌋ :=
      Int.toNat_of_nonneg hf
    exact_mod_cast this
  rw [hc]
  exact ⟨Int.floor_le _, Int.lt_floor_add_one _⟩

theorem frames_needed_below_one (interval : ℚ) (rate : Nat)
    (h : double_sum interval rate < 1) : frames_needed interval rate = 0 := by
  unfold frames_needed
  split_ifs
  · apply Int.toNat_eq_zero.mpr
    have h2 : ⌊double_sum interval rate⌋ < 1 := Int.floor_lt.mpr (by push_cast; exact h)
    omega
  · rfl

/-- A product of at most `1/2 - 2 ^ -53` gives `frames_needed = 0`. -/
theorem frames_needed_small (interval : ℚ) (rate : Nat) (h0 : 0 ≤ interval)
    (hrate : rate < 2 ^ 53) (h : interval * (rate : ℚ) ≤ 1 / 2 - 1 / 2 ^ 53) :
    frames_needed interval rate = 0 := by
  apply frames_needed_below_one
  unfold double_sum
  rw [round_double_nat rate hrate]
  obtain ⟨h1, h2⟩ := round_double_below_half _ (mul_nonneg h0 (Nat.cast_nonneg _)) h
  have h3 := round_double_le_of_le (round_double (interval * (rate : ℚ)) + 1 / 2)
    (-1) (2 ^ 53 - 1) (by norm_num) (by norm_num; linarith) (by norm_num; linarith)
    (by norm_num; linarith)
  norm_num at h3 ⊢
  linarith

theorem round_double_48000 : round_double ((48000 : Nat) : ℚ) = 48000 := by
  have := round_double_nat 48000 (by norm_num)
  simpa using this

theorem frames_needed_one_second : frames_needed 1 48000 = 48000 := by
  have h1 : round_double (1 * round_double ((48000 : Nat) : ℚ)) = 48000 := by
    rw [round_double_48000, one_mul]
    exact round_double_exact 48000 15 (48000 * 2 ^ 37) (by norm_num) (by norm_num)
      (by norm_num) (by norm_num)
  have h2 : round_double ((48000 : ℚ) + 1 / 2) = 48000 + 1 / 2 :=
    round_double_exact _ 15 (96001 * 2 ^ 36) (by norm_num) (by norm_num) (by norm_num)
      (by norm_num)
  unfold frames_needed double_sum
  rw [h1, h2]
  have h3 : ⌊(48000 : ℚ) + 1 / 2⌋ = 48000 := by
    rw [Int.floor_eq_iff]
    constructor <;> norm_num
  rw [h3, if_pos (by unfold SIZE_MOD; norm_num)]
  rfl

/-- At the interval `0x1.5d867c3ece2a5p-17` and 48000 Hz the product rounds up
to 0.5 and the sum is 1.0. -/
theorem double_sum_edge : double_sum (6148914691236517 / 2 ^ 69) 48000 = 1 := by
  have h1 : round_double ((6148914691236517 / 2 ^ 69 : ℚ) * round_double ((48000 : Nat) : ℚ))
      = 1 / 2 := by
    rw [round_double_48000]
    unfold round_double
    rw [double_exponent_eq _ (-2) (by norm_num) (by norm_num) (by norm_num)]
    rw [round_even_up _ (2 ^ 53 - 1) (by norm_num) (by norm_num)]
    norm_num
  have h2 : round_double ((1 / 2 : ℚ) + 1 / 2) = 1 := by
    have := round_double_exact 1 0 (2 ^ 52) (by norm_num) (by norm_num) (by norm_num)
      (by norm_num)
    norm_num
    exact this
  unfold double_sum
  rw [h1, h2]

theorem size_add_eq {a b : Nat} (h : a + b < SIZE_MOD) : size_add a b = a + b := by
  unfold size_add
  exact Nat.mod_eq_of_lt h

theorem size_sub_eq {a b : Nat} (hb : b ≤ a) (ha : a < SIZE_MOD) : size_sub a b = a - b := by
  unfold size_sub
  have hb2 : b % SIZE_MOD = b := Nat.mod_eq_of_lt (lt_of_le_of_lt hb ha)
  rw [hb2]
  have h1 : a + (SIZE_MOD - b) = (a - b) + SIZE_MOD := by omega
  rw [h1, Nat.add_mod_right]
  exact Nat.mod_eq_of_lt (by omega)

theorem size_add_le (a b : Nat) : size_add a b ≤ a + b := Nat.mod_le _ _

/-- A boundary-closing iteration whose feed succeeds, in a valid mode: the
remaining frames shrink by `F - c`, the counter restarts and one reading is
printed. -/
theorem interval_iteration_closing {σ : Type} (lib : ebur128 σ) (mode F : Nat)
    (s : chunk_state σ) (hmode : valid_mode lib mode)
    (hfeed : ∀ st buf k, (lib.add_frames_float st buf k).2 = 0)
    (h : F ≤ size_add s.frames_counter s.nr_frames_read) :
    ∃ st1 buf1 v, interval_iteration lib mode F s =
      (outcome.next ⟨st1, buf1, size_sub s.nr_frames_read (size_sub F s.frames_counter), 0⟩,
        [dump_event.add_frames s.frames_counter F s.nr_frames_read
            (size_sub F s.frames_counter) 0, dump_event.reading v]) := by
  unfold interval_iteration
  simp only [h, if_true, hfeed, ne_eq, not_true_eq_false, if_false]
  rcases hmode with hm | hm | hm
  · exact ⟨_, _, _, by rw [if_pos hm]⟩
  · by_cases h1 : mode = lib.EBUR128_MODE_M
    · exact ⟨_, _, _, by rw [if_pos h1]⟩
    · exact ⟨_, _, _, by rw [if_neg h1, if_pos hm]⟩
  · by_cases h1 : mode = lib.EBUR128_MODE_M
    · exact ⟨_, _, _, by rw [if_pos h1]⟩
    · by_cases h2 : mode = lib.EBUR128_MODE_S
      · exact ⟨_, _, _, by rw [if_neg h1, if_pos h2]⟩
      · exact ⟨_, _, _, by rw [if_neg h1, if_neg h2, if_pos hm]⟩

/-- An iteration below the boundary whose feed succeeds: the whole rest of the
chunk is fed and added to the counter, nothing is printed. -/
theorem interval_iteration_below {σ : Type} (lib : ebur128 σ) (mode F : Nat)
    (s : chunk_state σ)
    (hfeed : ∀ st buf k, (lib.add_frames_float st buf k).2 = 0)
    (h : ¬ F ≤ size_add s.frames_counter s.nr_frames_read) :
    ∃ st1 buf1, interval_iteration lib mode F s =
      (outcome.next ⟨st1, buf1, 0, size_add s.frames_counter s.nr_frames_read⟩,
        [dump_event.add_frames s.frames_counter F s.nr_frames_read s.nr_frames_read 0]) := by
  unfold interval_iteration
  simp only [h, if_false, hfeed, ne_eq, not_true_eq_false]
  exact ⟨_, _, rfl⟩

theorem emissions_append (a b : List dump_event) :
    emissions (a ++ b) = emissions a + emissions b := by
  unfold emissions
  exact List.countP_append _ _ _

/-- The inner loop on one chunk: with enough fuel it comes back to the loop
test with the chunk used up, having printed `(c + n) / F` readings and with
the counter at `(c + n) % F`. -/
theorem interval_chunk_count {σ : Type} (lib : ebur128 σ) (mode F : Nat)
    (hmode : valid_mode lib mode)
    (hfeed : ∀ st buf k, (lib.add_frames_float st buf k).2 = 0)
    (hF : 1 ≤ F) (fuel : Nat) :
    ∀ s : chunk_state σ, s.nr_frames_read ≤ fuel → s.frames_counter < F →
      s.frames_counter + s.nr_frames_read < SIZE_MOD →
      ∃ st1 buf1, (interval_chunk lib mode F fuel s).1 =
          outcome.next ⟨st1, buf1, 0, (s.frames_counter + s.nr_frames_read) % F⟩ ∧
        emissions (interval_chunk lib mode F fuel s).2
          = (s.frames_counter + s.nr_frames_read) / F := by
  induction fuel with
  | zero =>
    intro s hn hc _
    have hn0 : s.nr_frames_read = 0 := Nat.le_zero.mp hn
    refine ⟨s.st, s.tmp_buffer, ?_, ?_⟩
    · unfold interval_chunk
      simp only [hn0, if_true, Nat.add_zero, Nat.mod_eq_of_lt hc]
      cases s
      simp_all
    · unfold interval_chunk
      simp [hn0, emissions, Nat.div_eq_of_lt hc]
  | succ fuel ih =>
    intro s hn hc hfit
    by_cases hn0 : s.nr_frames_read = 0
    · refine ⟨s.st, s.tmp_buffer, ?_, ?_⟩
      · unfold interval_chunk
        simp only [hn0, if_true, Nat.add_zero, Nat.mod_eq_of_lt hc]
        cases s
        simp_all
      · unfold interval_chunk
        simp [hn0, emissions, Nat.div_eq_of_lt hc]
    · have hadd : size_add s.frames_counter s.nr_frames_read
          = s.frames_counter + s.nr_frames_read := size_add_eq hfit
      by_cases hcl : F ≤ size_add s.frames_counter s.nr_frames_read
      · obtain ⟨st1, buf1, v, hit⟩ := interval_iteration_closing lib mode F s hmode hfeed hcl
        rw [hadd] at hcl
        have hk : size_sub F s.frames_counter = F - s.frames_counter :=
          size_sub_eq (le_of_lt hc) (by omega)
        have hn1 : size_sub s.nr_frames_read (F - s.frames_counter)
            = s.nr_frames_read - (F - s.frames_counter) :=
          size_sub_eq (by omega) (by omega)
        rw [hk, hn1] at hit
        obtain ⟨st2, buf2, h1, h2⟩ := ih
          ⟨st1, buf1, s.nr_frames_read - (F - s.frames_counter), 0⟩
          (by simp only; omega) (by simp only; omega) (by simp only; omega)
        simp only [Nat.zero_add] at h1 h2
        have hsum : s.frames_counter + s.nr_frames_read
            = (s.nr_frames_read - (F - s.frames_counter)) + F := by omega
        refine ⟨st2, buf2, ?_, ?_⟩
        · rw [interval_chunk]
          simp only [hn0, if_false, hit, h1]
          rw [hsum, Nat.add_mod_right]
        · rw [interval_chunk]
          simp only [hn0, if_false, hit, emissions_append, h2]
          rw [hsum, Nat.add_div_right _ (by omega)]
          simp [emissions, dump_event.is_reading]
          omega
      · obtain ⟨st1, buf1, hit⟩ := interval_iteration_below lib mode F s hfeed hcl
        rw [hadd] at hcl hit
        have hlt : s.frames_counter + s.nr_frames_read < F := by omega
        refine ⟨st1, buf1, ?_, ?_⟩
        · rw [interval_chunk]
          simp only [hn0, if_false, hit]
          unfold interval_chunk
          simp [Nat.mod_eq_of_lt hlt]
        · rw [interval_chunk]
          simp only [hn0, if_false, hit]
          unfold interval_chunk
          simp [emissions, dump_event.is_reading, Nat.div_eq_of_lt hlt]

theorem add_div_split (a b F : Nat) : a / F + (a % F + b) / F = (a + b) / F := by
  rcases Nat.eq_zero_or_pos F with h0 | hpos
  · subst h0
    simp
  · have h : a + b = a % F + b + F * (a / F) := by
      have := Nat.mod_add_div a F
      omega
    rw [h, Nat.add_mul_div_left _ _ hpos]
    simp [Nat.add_mul_mod_self_left, Nat.add_comm]

/-- C1.  The chunk-consuming loop of `interval_loudness` (lines 229-262), in a
valid mode and with every feed accepted by the library: for `frames_needed`
`F ≥ 1`, a starting counter `c0 < F` and chunks of positive frame counts
summing to `T` (of any total length, `F` plus the length of one chunk fitting
`size_t`), the loop ends normally (given fuel for the longest chunk), prints
`(c0 + T) / F` readings and leaves the counter at `(c0 + T) % F`; the split of
the frames into chunks does not enter the result. -/
theorem interval_reads_count {σ : Type} (lib : ebur128 σ) (mode F fuel : Nat) (e : Int)
    (hmode : valid_mode lib mode)
    (hfeed : ∀ st buf k, (lib.add_frames_float st buf k).2 = 0)
    (hF : 1 ≤ F) (reads : List (Nat × List ℚ)) (st : σ) (c0 : Nat)
    (hpos : ∀ r ∈ reads, 0 < r.1) (hfuel : ∀ r ∈ reads, r.1 ≤ fuel)
    (hc : c0 < F) (hfit : ∀ r ∈ reads, F + r.1 ≤ SIZE_MOD) :
    ∃ st1, (interval_reads lib mode F fuel reads st c0 e).1
        = some ⟨some st1, (c0 + (reads.map Prod.fst).sum) % F, e⟩ ∧
      emissions (interval_reads lib mode F fuel reads st c0 e).2
        = (c0 + (reads.map Prod.fst).sum) / F := by
  induction reads generalizing st c0 with
  | nil =>
    refine ⟨st, ?_, ?_⟩
    · simp [interval_reads, Nat.mod_eq_of_lt hc]
    · simp [interval_reads, emissions, Nat.div_eq_of_lt hc]
  | cons r rest ih =>
    obtain ⟨n, buffer⟩ := r
    have hn : 0 < n := hpos (n, buffer) (List.mem_cons_self _ _)
    have hnf : n ≤ fuel := hfuel (n, buffer) (List.mem_cons_self _ _)
    have hnM : F + n ≤ SIZE_MOD := hfit (n, buffer) (List.mem_cons_self _ _)
    simp only [List.map_cons, List.sum_cons]
    obtain ⟨st1, buf1, h1, h2⟩ := interval_chunk_count lib mode F hmode hfeed hF fuel
      ⟨st, buffer, n, c0⟩ hnf hc (by simp only; omega)
    simp only at h1 h2
    have hlt : (c0 + n) % F < F := Nat.mod_lt _ (by omega)
    obtain ⟨st2, h3, h4⟩ := ih st1 ((c0 + n) % F)
      (fun r hr => hpos r (List.mem_cons_of_mem _ hr))
      (fun r hr => hfuel r (List.mem_cons_of_mem _ hr)) hlt
      (fun r hr => hfit r (List.mem_cons_of_mem _ hr))
    rcases hx : interval_chunk lib mode F fuel ⟨st, buffer, n, c0⟩ with ⟨o, tr⟩
    rw [hx] at h1 h2
    simp only at h1 h2
    subst h1
    refine ⟨st2, ?_, ?_⟩
    · rw [interval_reads]
      simp only [Nat.ne_of_gt hn, if_false, hx, h3]
      rw [Nat.mod_add_mod, Nat.add_assoc]
    · rw [interval_reads]
      simp only [Nat.ne_of_gt hn, if_false, hx, emissions_append, h2, h4]
      rw [add_div_split, Nat.add_assoc]

/-- One iteration started below the boundary: its feed is in bounds and the
counter stays below `F`. -/
theorem interval_iteration_bounds {σ : Type} (lib : ebur128 σ) (mode F : Nat)
    (hadd : ∀ st buf k, lib.samplerate (lib.add_frames_float st buf k).1 = lib.samplerate st)
    (hFM : F < SIZE_MOD) (s : chunk_state σ) (hn : s.nr_frames_read ≠ 0)
    (hc : s.frames_counter < F) :
    (∀ ev ∈ (interval_iteration lib mode F s).2, feed_in_bounds ev) ∧
      outcome_below lib F (lib.samplerate s.st) (interval_iteration lib mode F s).1 := by
  have hpos : 0 < F := by omega
  unfold interval_iteration
  by_cases hcl : F ≤ size_add s.frames_counter s.nr_frames_read
  · have hle := size_add_le s.frames_counter s.nr_frames_read
    have hk : size_sub F s.frames_counter = F - s.frames_counter :=
      size_sub_eq (le_of_lt hc) hFM
    have hb : feed_in_bounds (dump_event.add_frames s.frames_counter F s.nr_frames_read
        (F - s.frames_counter) (lib.add_frames_float s.st s.tmp_buffer (F - s.frames_counter)).2) := by
      simp only [feed_in_bounds]
      omega
    have hr : ∀ v, feed_in_bounds (dump_event.reading v) := fun _ => trivial
    have hi : feed_in_bounds dump_event.invalid_mode := trivial
    simp only [hcl, if_true, hk]
    split_ifs <;> simp [outcome_below, hadd, hc, hpos, hb, hr, hi]
  · have hb : feed_in_bounds (dump_event.add_frames s.frames_counter F s.nr_frames_read
        s.nr_frames_read (lib.add_frames_float s.st s.tmp_buffer s.nr_frames_read).2) := by
      simp only [feed_in_bounds]
      omega
    simp only [hcl, if_false]
    split_ifs
    · simp [outcome_below, hadd, hc, hb]
    · simp only [outcome_below, hadd, List.mem_singleton, forall_eq, and_true]
      exact ⟨hb, by omega⟩

/-- The inner loop started below the boundary: all its feeds are in bounds and
it leaves the counter below `F`, whatever the fuel. -/
theorem interval_chunk_bounds {σ : Type} (lib : ebur128 σ) (mode F : Nat)
    (hadd : ∀ st buf k, lib.samplerate (lib.add_frames_float st buf k).1 = lib.samplerate st)
    (hFM : F < SIZE_MOD) (fuel : Nat) :
    ∀ s : chunk_state σ, s.frames_counter < F →
      (∀ ev ∈ (interval_chunk lib mode F fuel s).2, feed_in_bounds ev) ∧
        outcome_below lib F (lib.samplerate s.st) (interval_chunk lib mode F fuel s).1 := by
  induction fuel with
  | zero =>
    intro s hc
    unfold interval_chunk
    by_cases hn : s.nr_frames_read = 0
    · simp [hn, outcome_below, hc]
    · simp [hn, outcome_below]
  | succ fuel ih =>
    intro s hc
    rw [interval_chunk]
    by_cases hn : s.nr_frames_read = 0
    · simp [hn, outcome_below, hc]
    · have hb := interval_iteration_bounds lib mode F hadd hFM s hn hc
      rcases hx : interval_iteration lib mode F s with ⟨o, tr⟩
      rw [hx] at hb
      simp only [hn, if_false]
      cases o with
      | next s1 =>
        obtain ⟨h1, h2, h3⟩ := hb
        obtain ⟨h4, h5⟩ := ih s1 h2
        rw [h3] at h5
        refine ⟨?_, h5⟩
        intro ev hev
        rcases List.mem_append.mp hev with h | h
        · exact h1 ev h
        · exact h4 ev h
      | free_buffer st1 c1 b => exact hb
      | out_of_fuel => exact hb

/-- The loop over the chunks of one file, started below the boundary: all
feeds are in bounds, and at `free_buffer` the counter is below `F` and the
session has kept its sample rate. -/
theorem interval_reads_bounds {σ : Type} (lib : ebur128 σ) (mode F fuel : Nat) (e : Int)
    (hadd : ∀ st buf k, lib.samplerate (lib.add_frames_float st buf k).1 = lib.samplerate st)
    (hFM : F < SIZE_MOD) (reads : List (Nat × List ℚ)) :
    ∀ (st : σ) (c : Nat), c < F →
      (∀ ev ∈ (interval_reads lib mode F fuel reads st c e).2, feed_in_bounds ev) ∧
        ∀ s1, (interval_reads lib mode F fuel reads st c e).1 = some s1 →
          ∃ st1, s1.st = some st1 ∧ lib.samplerate st1 = lib.samplerate st ∧
            s1.frames_counter < F := by
  induction reads with
  | nil =>
    intro st c hc
    simp only [interval_reads, List.not_mem_nil, false_implies, implies_true, true_and,
      Option.some.injEq]
    intro s1 hs
    subst hs
    exact ⟨st, rfl, rfl, hc⟩
  | cons r rest ih =>
    intro st c hc
    obtain ⟨n, buffer⟩ := r
    rw [interval_reads]
    by_cases hn : n = 0
    · simp only [hn, if_true, List.not_mem_nil, false_implies, implies_true, true_and,
        Option.some.injEq]
      intro s1 hs
      subst hs
      exact ⟨st, rfl, rfl, hc⟩
    · have hb := interval_chunk_bounds lib mode F hadd hFM fuel ⟨st, buffer, n, c⟩ hc
      rcases hx : interval_chunk lib mode F fuel ⟨st, buffer, n, c⟩ with ⟨o, tr⟩
      rw [hx] at hb
      simp only [hn, if_false]
      cases o with
      | next s2 =>
        obtain ⟨h1, h2, h3⟩ := hb
        obtain ⟨h4, h5⟩ := ih s2.st s2.frames_counter h2
        refine ⟨?_, ?_⟩
        · intro ev hev
          rcases List.mem_append.mp hev with h | h
          · exact h1 ev h
          · exact h4 ev h
        · intro s1 hs
          obtain ⟨st1, h6, h7, h8⟩ := h5 s1 hs
          exact ⟨st1, h6, by rw [h7, h3], h8⟩
      | free_buffer st1 c1 b =>
        obtain ⟨h1, h2, h3⟩ := hb
        refine ⟨h1, ?_⟩
        intro s1 hs
        simp only [Option.some.injEq] at hs
        subst hs
        exact ⟨st1, rfl, h3, h2⟩
      | out_of_fuel =>
        refine ⟨hb.1, ?_⟩
        intro s1 hs
        simp at hs

theorem channel_map_fallback_samplerate {σ : Type} (lib : ebur128 σ)
    (hset : ∀ st i ch, lib.samplerate (lib.set_channel st i ch) = lib.samplerate st)
    (result : Int) (st : σ) :
    lib.samplerate (channel_map_fallback lib result st) = lib.samplerate st := by
  unfold channel_map_fallback
  split_ifs
  · simp only [hset]
  · rfl

/-- The body of the file loop keeps the counter below the boundary of the
session, and all its feeds are in bounds. -/
theorem interval_file_bounds {σ : Type} (lib : ebur128 σ) (interval : ℚ) (mode fuel : Nat)
    (hF : ∀ st, 1 ≤ frames_needed interval (lib.samplerate st))
    (hadd : ∀ st buf k, lib.samplerate (lib.add_frames_float st buf k).1 = lib.samplerate st)
    (hset : ∀ st i ch, lib.samplerate (lib.set_channel st i ch) = lib.samplerate st)
    (hchg : ∀ st ch sr, (lib.change_parameters st ch sr).2 ≠ 0 →
      lib.samplerate (lib.change_parameters st ch sr).1 = lib.samplerate st)
    (f : input_file σ)
    (hmap : ∀ st, lib.samplerate (f.set_channel_map st).1 = lib.samplerate st)
    (s : dump_state σ) (hs : counter_below lib interval s) :
    (∀ ev ∈ (interval_file lib interval mode fuel f s).2, feed_in_bounds ev) ∧
      ∀ s1, (interval_file lib interval mode fuel f s).1 = some s1 →
        counter_below lib interval s1 := by
  unfold interval_file
  by_cases ho : f.open_file ≠ 0
  · rw [if_pos ho]
    simp only [List.not_mem_nil, false_implies, implies_true, true_and, Option.some.injEq]
    intro s1 h1
    subst h1
    exact hs
  · rw [if_neg ho]
    have hsess : ∀ st0 c, interval_session lib mode f s = some (st0, c) →
        c < frames_needed interval (lib.samplerate st0) := by
      intro st0 c h
      unfold interval_session at h
      unfold counter_below at hs
      cases hst : s.st with
      | none =>
        rw [hst] at h hs
        simp only at h hs
        cases hi : lib.init f.get_channels f.get_samplerate mode with
        | none => rw [hi] at h; simp at h
        | some st1 =>
          rw [hi] at h
          simp only [Option.some.injEq, Prod.mk.injEq] at h
          have := hF st0
          omega
      | some st1 =>
        rw [hst] at h hs
        simp only [Option.some.injEq, Prod.mk.injEq] at h hs
        obtain ⟨h1, h2⟩ := h
        by_cases hr : (lib.change_parameters st1 f.get_channels f.get_samplerate).2 = 0
        · rw [if_pos hr] at h2
          have := hF st0
          omega
        · rw [if_neg hr] at h2
          rw [← h1, hchg _ _ _ hr, ← h2]
          exact hs
    cases hx : interval_session lib mode f s with
    | none =>
      simp only [List.not_mem_nil, false_implies, implies_true, true_and, Option.some.injEq]
      intro s1 h1
      subst h1
      unfold counter_below at hs ⊢
      simp only
      cases hst : s.st with
      | none => rw [hst] at hs; exact hs
      | some st1 =>
        unfold interval_session at hx
        rw [hst] at hx
        simp at hx
    | some p =>
      obtain ⟨st0, c⟩ := p
      have hc := hsess st0 c hx
      have hrate : lib.samplerate (channel_map_fallback lib (f.set_channel_map st0).2
          (f.set_channel_map st0).1) = lib.samplerate st0 := by
        rw [channel_map_fallback_samplerate lib hset, hmap]
      by_cases ha : f.allocate_buffer ≠ 0
      · simp only [if_pos ha, List.not_mem_nil, false_implies, implies_true, true_and,
          Option.some.injEq]
        intro s1 h1
        subst h1
        unfold counter_below
        simp only [hrate]
        exact hc
      · simp only [if_neg ha]
        rw [← hrate] at hc
        obtain ⟨h1, h2⟩ := interval_reads_bounds lib mode _ fuel s.errcode hadd
          (frames_needed_lt _ _) f.read_frames _ c hc
        refine ⟨h1, ?_⟩
        intro s1 hs1
        obtain ⟨st1, h3, h4, h5⟩ := h2 s1 hs1
        unfold counter_below
        rw [h3]
        simp only [h4]
        exact h5

/-- The loop over the files keeps the counter below the boundary, and all its
feeds are in bounds. -/
theorem interval_files_bounds {σ : Type} (lib : ebur128 σ) (interval : ℚ) (mode fuel : Nat)
    (hF : ∀ st, 1 ≤ frames_needed interval (lib.samplerate st))
    (hadd : ∀ st buf k, lib.samplerate (lib.add_frames_float st buf k).1 = lib.samplerate st)
    (hset : ∀ st i ch, lib.samplerate (lib.set_channel st i ch) = lib.samplerate st)
    (hchg : ∀ st ch sr, (lib.change_parameters st ch sr).2 ≠ 0 →
      lib.samplerate (lib.change_parameters st ch sr).1 = lib.samplerate st)
    (files : List (input_file σ))
    (hmap : ∀ f ∈ files, ∀ st, lib.samplerate (f.set_channel_map st).1 = lib.samplerate st) :
    ∀ s : dump_state σ, counter_below lib interval s →
      ∀ ev ∈ (interval_files lib interval mode fuel files s).2, feed_in_bounds ev := by
  induction files with
  | nil =>
    intro s _ ev hev
    simp [interval_files] at hev
  | cons f rest ih =>
    intro s hs ev hev
    obtain ⟨h1, h2⟩ := interval_file_bounds lib interval mode fuel hF hadd hset hchg f
      (hmap f (List.mem_cons_self _ _)) s hs
    rw [interval_files] at hev
    rcases hx : interval_file lib interval mode fuel f s with ⟨o, tr⟩
    rw [hx] at hev h1 h2
    cases o with
    | none => exact h1 ev hev
    | some s1 =>
      simp only at hev
      rcases List.mem_append.mp hev with h | h
      · exact h1 ev h
      · exact ih (fun g hg => hmap g (List.mem_cons_of_mem _ hg)) s1 (h2 s1 rfl) ev h

theorem fed_frames_append (a b : List dump_event) :
    fed_frames (a ++ b) = fed_frames a + fed_frames b := by
  induction a with
  | nil => simp [fed_frames]
  | cons ev a ih =>
    cases ev <;> simp [fed_frames, ih, Nat.add_assoc]

/-- An iteration that comes back to the loop test has fed exactly the frames
by which the rest of the chunk shrank. -/
theorem interval_iteration_fed {σ : Type} (lib : ebur128 σ) (mode F : Nat)
    (s s1 : chunk_state σ) (hFM : F < SIZE_MOD) (hc : s.frames_counter < F)
    (hnM : s.nr_frames_read < SIZE_MOD)
    (h : (interval_iteration lib mode F s).1 = outcome.next s1) :
    fed_frames (interval_iteration lib mode F s).2 + s1.nr_frames_read = s.nr_frames_read ∧
      s1.frames_counter < F := by
  unfold interval_iteration at h ⊢
  by_cases hcl : F ≤ size_add s.frames_counter s.nr_frames_read
  · have hle := size_add_le s.frames_counter s.nr_frames_read
    have hk : size_sub F s.frames_counter = F - s.frames_counter :=
      size_sub_eq (le_of_lt hc) hFM
    have hn1 : size_sub s.nr_frames_read (F - s.frames_counter)
        = s.nr_frames_read - (F - s.frames_counter) := size_sub_eq (by omega) hnM
    simp only [hcl, if_true, hk, hn1] at h ⊢
    split_ifs at h ⊢ <;> simp only [outcome.next.injEq, reduceCtorEq] at h <;>
      (subst h; simp only [fed_frames]; omega)
  · simp only [hcl, if_false] at h ⊢
    split_ifs at h ⊢
    · simp only [outcome.next.injEq] at h
      subst h
      simp only [fed_frames]
      omega

/-- The inner loop, when it uses the chunk up, has fed the chunk's length. -/
theorem interval_chunk_fed {σ : Type} (lib : ebur128 σ) (mode F : Nat) (hFM : F < SIZE_MOD)
    (fuel : Nat) :
    ∀ s s1 : chunk_state σ, s.frames_counter < F → s.nr_frames_read < SIZE_MOD →
      (interval_chunk lib mode F fuel s).1 = outcome.next s1 →
      fed_frames (interval_chunk lib mode F fuel s).2 = s.nr_frames_read ∧
        s1.nr_frames_read = 0 := by
  induction fuel with
  | zero =>
    intro s s1 _ _ h
    unfold interval_chunk at h ⊢
    by_cases hn : s.nr_frames_read = 0
    · simp only [hn, if_true, outcome.next.injEq] at h ⊢
      subst h
      simp [fed_frames, hn]
    · simp [hn] at h
  | succ fuel ih =>
    intro s s1 hc hnM h
    rw [interval_chunk] at h ⊢
    by_cases hn : s.nr_frames_read = 0
    · simp only [hn, if_true, outcome.next.injEq] at h ⊢
      subst h
      simp [fed_frames, hn]
    · have hfed := interval_iteration_fed lib mode F s
      rcases hx : interval_iteration lib mode F s with ⟨o, tr⟩
      rw [hx] at h hfed
      simp only [hn, if_false] at h ⊢
      cases o with
      | next s2 =>
        simp only at h ⊢
        obtain ⟨h1, h2⟩ := hfed s2 hFM hc hnM rfl
        obtain ⟨h3, h4⟩ := ih s2 s1 h2 (by omega) h
        rw [fed_frames_append, h3]
        exact ⟨h1, h4⟩
      | free_buffer st1 c1 b => simp at h
      | out_of_fuel => simp at h

/-- C9.  Counter invariant of `interval_loudness`.  Provided `frames_needed` is
at least 1 for every session and the sample rate of the session changes only
when `ebur128_change_parameters` returns 0, every iteration of the chunk loop,
in every file of the run and for every fuel, starts with
`frames_counter < frames_needed`; the frame count it feeds is at least 1 and
at most the frames remaining in the chunk, a boundary-closing feed passes
`frames_needed - frames_counter` without wrap-around, and the feeds of a chunk
that is used up sum to the chunk's length. -/
theorem interval_loudness_counter_bound {σ : Type} (lib : ebur128 σ) (init_library : Int)
    (fuel : Nat) (gd : gain_data σ) (no_files : Nat)
    (hF : ∀ st, 1 ≤ frames_needed gd.interval (lib.samplerate st))
    (hadd : ∀ st buf k, lib.samplerate (lib.add_frames_float st buf k).1 = lib.samplerate st)
    (hset : ∀ st i ch, lib.samplerate (lib.set_channel st i ch) = lib.samplerate st)
    (hchg : ∀ st ch sr, (lib.change_parameters st ch sr).2 ≠ 0 →
      lib.samplerate (lib.change_parameters st ch sr).1 = lib.samplerate st)
    (hmap : ∀ i, i < no_files → ∀ st,
      lib.samplerate ((gd.file_names i).set_channel_map st).1 = lib.samplerate st) :
    (∀ c F n k r,
        dump_event.add_frames c F n k r ∈ (interval_loudness lib init_library fuel gd no_files).2 →
        c < F ∧ 1 ≤ k ∧ k ≤ n ∧ (F ≤ size_add c n → c + k = F)) ∧
      (∀ (F fuel1 : Nat) (s s1 : chunk_state σ), s.frames_counter < F → F < SIZE_MOD →
        s.nr_frames_read < SIZE_MOD →
        (interval_chunk lib gd.mode F fuel1 s).1 = outcome.next s1 →
        fed_frames (interval_chunk lib gd.mode F fuel1 s).2 = s.nr_frames_read) := by
  constructor
  · intro c F n k r hev
    unfold interval_loudness at hev
    by_cases hi : init_library ≠ 0
    · rw [if_pos hi] at hev
      simp at hev
    · rw [if_neg hi] at hev
      simp only at hev
      have hfiles : ∀ f ∈ (List.range no_files).map gd.file_names, ∀ st,
          lib.samplerate (f.set_channel_map st).1 = lib.samplerate st := by
        intro f hf
        obtain ⟨i, hi1, hi2⟩ := List.mem_map.mp hf
        rw [← hi2]
        exact hmap i (List.mem_range.mp hi1)
      exact interval_files_bounds lib gd.interval gd.mode fuel hF hadd hset hchg _ hfiles
        ⟨none, 0, 0⟩ rfl _ hev
  · intro F fuel1 s s1 hc hFM hnM h
    exact (interval_chunk_fed lib gd.mode F hFM fuel1 s s1 hc hnM h).1

theorem size_sub_zero {n : Nat} (h : n < SIZE_MOD) : size_sub n 0 = n := by
  have := size_sub_eq (Nat.zero_le n) h
  simpa using this

/-- A successful `parse_interval` stores the interval and one of the three
modes. -/
theorem parse_interval_accepts {σ : Type} (lib : ebur128 σ) (gd : gain_data σ)
    (option_name : String) (v : ℚ) (hm0 : gd.mode = 0) (hv : 0 < v)
    (hname : option_name = "-m" ∨ option_name = "--momentary" ∨ option_name = "-s" ∨
      option_name = "--shortterm" ∨ option_name = "-i" ∨ option_name = "--integrated") :
    (parse_interval lib gd option_name v).1 = true ∧
      (parse_interval lib gd option_name v).2.interval = v ∧
      valid_mode lib (parse_interval lib gd option_name v).2.mode := by
  unfold parse_interval valid_mode
  have hv2 : ¬ v ≤ 0 := not_le.mpr hv
  simp only [hm0, ne_eq, not_true_eq_false, if_false, hv2]
  rcases hname with h | h | h | h | h | h <;> subst h <;> simp

/-- With `frames_needed = 0` and the counter at 0 an iteration feeds no frame,
prints a reading and changes neither the remaining frames nor the counter. -/
theorem interval_iteration_zero {σ : Type} (lib : ebur128 σ) (mode : Nat)
    (hmode : valid_mode lib mode)
    (hfeed : ∀ st buf k, (lib.add_frames_float st buf k).2 = 0)
    (st : σ) (buf : List ℚ) (n : Nat) (hnM : n < SIZE_MOD) :
    ∃ st1 x, interval_iteration lib mode 0 ⟨st, buf, n, 0⟩ =
      (outcome.next ⟨st1, buf, n, 0⟩,
        [dump_event.add_frames 0 0 n 0 0, dump_event.reading x]) := by
  obtain ⟨st1, buf1, x, h⟩ := interval_iteration_closing lib mode 0 ⟨st, buf, n, 0⟩ hmode hfeed
    (Nat.zero_le _)
  have hk : size_sub 0 0 = 0 := size_sub_zero (by unfold SIZE_MOD; positivity)
  simp only [hk, size_sub_zero hnM] at h
  have hb : buf1 = buf := by
    have h2 := congrArg Prod.fst h
    unfold interval_iteration at h2
    simp only [Nat.zero_le, if_true, hfeed, ne_eq, not_true_eq_false, if_false, hk] at h2
    split_ifs at h2 <;> simp [size_mul] at h2 <;> exact h2.2.1.symm
  subst hb
  exact ⟨st1, x, h⟩

/-- With `frames_needed = 0` the inner loop never uses the chunk up: whatever
the fuel, it is still running when the fuel is spent, one reading printed per
iteration. -/
theorem interval_chunk_zero {σ : Type} (lib : ebur128 σ) (mode : Nat)
    (hmode : valid_mode lib mode)
    (hfeed : ∀ st buf k, (lib.add_frames_float st buf k).2 = 0)
    (buf : List ℚ) (n : Nat) (hn : 0 < n) (hnM : n < SIZE_MOD) (fuel : Nat) :
    ∀ st : σ, (interval_chunk lib mode 0 fuel ⟨st, buf, n, 0⟩).1 = outcome.out_of_fuel ∧
      emissions (interval_chunk lib mode 0 fuel ⟨st, buf, n, 0⟩).2 = fuel := by
  induction fuel with
  | zero =>
    intro st
    unfold interval_chunk
    simp [Nat.ne_of_gt hn, emissions]
  | succ fuel ih =>
    intro st
    obtain ⟨st1, x, h⟩ := interval_iteration_zero lib mode hmode hfeed st buf n hnM
    obtain ⟨h1, h2⟩ := ih st1
    rw [interval_chunk]
    simp only [Nat.ne_of_gt hn, if_false, h, h1, emissions_append, h2]
    simp [emissions, dump_event.is_reading]
    omega

/-- With `frames_needed ≥ 1` and the counter below it, an iteration that comes
back to the loop test has strictly fewer frames left. -/
theorem interval_iteration_decreases {σ : Type} (lib : ebur128 σ) (mode F : Nat)
    (s s1 : chunk_state σ) (hn : s.nr_frames_read ≠ 0) (hc : s.frames_counter < F)
    (hnM : s.nr_frames_read < SIZE_MOD)
    (h : (interval_iteration lib mode F s).1 = outcome.next s1) :
    s1.nr_frames_read < s.nr_frames_read ∧ s1.frames_counter < F := by
  by_cases hcl : F ≤ size_add s.frames_counter s.nr_frames_read
  · have hFM : F < SIZE_MOD :=
      lt_of_le_of_lt hcl (Nat.mod_lt _ (by unfold SIZE_MOD; positivity))
    have hle := size_add_le s.frames_counter s.nr_frames_read
    have hk : size_sub F s.frames_counter = F - s.frames_counter :=
      size_sub_eq (le_of_lt hc) hFM
    have hn1 : size_sub s.nr_frames_read (F - s.frames_counter)
        = s.nr_frames_read - (F - s.frames_counter) := size_sub_eq (by omega) hnM
    unfold interval_iteration at h
    simp only [hcl, if_true, hk, hn1] at h
    split_ifs at h <;> simp only [outcome.next.injEq, reduceCtorEq] at h <;>
      (subst h; simp only; omega)
  · unfold interval_iteration at h
    simp only [hcl, if_false] at h
    split_ifs at h
    simp only [outcome.next.injEq] at h
    subst h
    simp only
    omega

/-- With the counter below `frames_needed` the inner loop ends within as many
iterations as the chunk has frames. -/
theorem interval_chunk_terminates {σ : Type} (lib : ebur128 σ) (mode F : Nat) (fuel : Nat) :
    ∀ s : chunk_state σ, s.nr_frames_read ≤ fuel → s.frames_counter < F →
      s.nr_frames_read < SIZE_MOD →
      (interval_chunk lib mode F fuel s).1 ≠ outcome.out_of_fuel := by
  induction fuel with
  | zero =>
    intro s hn _ _
    unfold interval_chunk
    simp [Nat.le_zero.mp hn]
  | succ fuel ih =>
    intro s hnf hc hnM
    rw [interval_chunk]
    by_cases hn : s.nr_frames_read = 0
    · simp [hn]
    · have hdec := interval_iteration_decreases lib mode F s
      have hb : (interval_iteration lib mode F s).1 ≠ outcome.out_of_fuel := by
        unfold interval_iteration
        dsimp only
        split_ifs <;> simp
      rcases hx : interval_iteration lib mode F s with ⟨o, tr⟩
      rw [hx] at hdec hb
      simp only [hn, if_false]
      cases o with
      | next s2 =>
        obtain ⟨h1, h2⟩ := hdec s2 hn hc hnM rfl
        exact ih s2 (by omega) h2 (by omega)
      | free_buffer st1 c1 b => simp
      | out_of_fuel => exact absurd rfl hb

/-- C10, the claim as stated fails: the interval `0x1.5d867c3ece2a5p-17` is a
double greater than 0 that `parse_interval` accepts; at 48000 Hz the exact
product is below 1/2, but in `double` arithmetic the product rounds up to 0.5
and the sum to 1.0, so `frames_needed` is 1, not 0. -/
theorem frames_needed_rounds_up :
    round_double (6148914691236517 / 2 ^ 69) = 6148914691236517 / 2 ^ 69 ∧
      (parse_interval (counting_lib 2) (plain_gd (fun _ => plain_file "a.wav" []) 0 0)
        "-m" (6148914691236517 / 2 ^ 69)).1 = true ∧
      (6148914691236517 / 2 ^ 69 : ℚ) * ((48000 : Nat) : ℚ) < 1 / 2 ∧
      frames_needed (6148914691236517 / 2 ^ 69) 48000 = 1 := by
  refine ⟨?_, ?_, by norm_num, ?_⟩
  · exact round_double_exact _ (-17) 6148914691236517 (by norm_num) (by norm_num)
      (by norm_num) (by norm_num)
  · exact (parse_interval_accepts (counting_lib 2) _ "-m" _ rfl (by norm_num) (Or.inl rfl)).1
  · unfold frames_needed
    rw [double_sum_edge, if_pos (by unfold SIZE_MOD; norm_num)]
    simp

/-- C10, amended.  Zero-length interval window.  `parse_interval` accepts every
interval greater than 0 (first mode option, known option name);
`frames_needed` is the integer part of `interval * samplerate + 0.5` as
computed in `double` arithmetic, and it is 0 when
`interval * samplerate ≤ 1/2 - 2 ^ -53` (sample rate below `2 ^ 53`).  With
`frames_needed = 0` and the counter at 0, an iteration of the inner loop on a
chunk with `n > 0` frames left feeds 0 frames, prints one reading and leaves
the remaining frames and the counter as they were, so the loop is still running
after any number of iterations.  With the counter below `frames_needed` every
iteration that returns to the loop test has strictly fewer frames left, and
the loop ends within `n` iterations. -/
theorem zero_length_window {σ : Type} (lib : ebur128 σ) (gd : gain_data σ)
    (option_name : String) (v : ℚ) (rate : Nat) (st : σ) (buf : List ℚ) (n : Nat)
    (hm0 : gd.mode = 0)
    (hname : option_name = "-m" ∨ option_name = "--momentary" ∨ option_name = "-s" ∨
      option_name = "--shortterm" ∨ option_name = "-i" ∨ option_name = "--integrated")
    (hv : 0 < v) (hrate : rate < 2 ^ 53) (hsmall : v * (rate : ℚ) ≤ 1 / 2 - 1 / 2 ^ 53)
    (hfeed : ∀ st buf k, (lib.add_frames_float st buf k).2 = 0)
    (hn : 0 < n) (hnM : n < SIZE_MOD) :
    (parse_interval lib gd option_name v).1 = true ∧
      (parse_interval lib gd option_name v).2.interval = v ∧
      (∀ (interval : ℚ) (samplerate : Nat), 0 ≤ double_sum interval samplerate →
        double_sum interval samplerate < (SIZE_MOD : ℚ) →
        (frames_needed interval samplerate : ℚ) ≤ double_sum interval samplerate ∧
          double_sum interval samplerate < (frames_needed interval samplerate : ℚ) + 1) ∧
      frames_needed (parse_interval lib gd option_name v).2.interval rate = 0 ∧
      (∃ st1 x, interval_iteration lib (parse_interval lib gd option_name v).2.mode 0
          ⟨st, buf, n, 0⟩ =
        (outcome.next ⟨st1, buf, n, 0⟩,
          [dump_event.add_frames 0 0 n 0 0, dump_event.reading x])) ∧
      (∀ fuel, (interval_chunk lib (parse_interval lib gd option_name v).2.mode 0 fuel
          ⟨st, buf, n, 0⟩).1 = outcome.out_of_fuel) ∧
      (∀ mode F c, c < F →
        (∀ s1, (interval_iteration lib mode F ⟨st, buf, n, c⟩).1 = outcome.next s1 →
          s1.nr_frames_read < n) ∧
        (∀ fuel, n ≤ fuel →
          (interval_chunk lib mode F fuel ⟨st, buf, n, c⟩).1 ≠ outcome.out_of_fuel)) := by
  obtain ⟨h1, h2, h3⟩ := parse_interval_accepts lib gd option_name v hm0 hv hname
  refine ⟨h1, h2, ?_, ?_, ?_, ?_, ?_⟩
  · intro interval samplerate ha hb
    exact frames_needed_floor interval samplerate ha hb
  · rw [h2]
    exact frames_needed_small v rate (le_of_lt hv) hrate hsmall
  · exact interval_iteration_zero lib _ h3 hfeed st buf n hnM
  · intro fuel
    exact (interval_chunk_zero lib _ h3 hfeed buf n hn hnM fuel st).1
  · intro mode F c hc
    constructor
    · intro s1 hs
      exact (interval_iteration_decreases lib _ F ⟨st, buf, n, c⟩ s1 (Nat.ne_of_gt hn) hc hnM hs).1
    · intro fuel hf
      exact interval_chunk_terminates lib _ F fuel ⟨st, buf, n, c⟩ hf hc hnM

/-- Every iteration of the inner loop starts with a feed, recorded with the
counter the iteration started from. -/
theorem interval_iteration_head {σ : Type} (lib : ebur128 σ) (mode F : Nat)
    (s : chunk_state σ) :
    ∃ k r tl, (interval_iteration lib mode F s).2 =
      dump_event.add_frames s.frames_counter F s.nr_frames_read k r :: tl := by
  unfold interval_iteration
  dsimp only
  split_ifs <;> exact ⟨_, _, _, rfl⟩

/-- The first event of the inner loop, if there is one, is a feed recorded
with the counter the loop was entered with. -/
theorem interval_chunk_head {σ : Type} (lib : ebur128 σ) (mode F fuel : Nat)
    (s : chunk_state σ) :
    (interval_chunk lib mode F fuel s).2 = [] ∨
      ∃ k r tl, (interval_chunk lib mode F fuel s).2 =
        dump_event.add_frames s.frames_counter F s.nr_frames_read k r :: tl := by
  cases fuel with
  | zero =>
    left
    unfold interval_chunk
    split_ifs <;> rfl
  | succ fuel =>
    rw [interval_chunk]
    by_cases hn : s.nr_frames_read = 0
    · left
      simp [hn]
    · right
      obtain ⟨k, r, tl, h⟩ := interval_iteration_head lib mode F s
      rcases hx : interval_iteration lib mode F s with ⟨o, tr⟩
      rw [hx] at h
      simp only at h
      subst h
      simp only [hn, if_false]
      cases o with
      | next s1 => exact ⟨k, r, tl ++ (interval_chunk lib mode F fuel s1).2, by simp⟩
      | free_buffer st1 c1 b => exact ⟨k, r, _, rfl⟩
      | out_of_fuel => exact ⟨k, r, _, rfl⟩

/-- The first feed of the chunk loop of a file is recorded with the counter
the loop was entered with. -/
theorem interval_reads_head {σ : Type} (lib : ebur128 σ) (mode F fuel : Nat) (e : Int)
    (reads : List (Nat × List ℚ)) (st : σ) (c : Nat) (ev : dump_event)
    (h : (interval_reads lib mode F fuel reads st c e).2.head? = some ev) :
    ∃ n k r, ev = dump_event.add_frames c F n k r := by
  cases reads with
  | nil => simp [interval_reads] at h
  | cons rd rest =>
    obtain ⟨n, buffer⟩ := rd
    rw [interval_reads] at h
    by_cases hn : n = 0
    · simp [hn] at h
    · simp only [hn, if_false] at h
      have hh := interval_chunk_head lib mode F fuel ⟨st, buffer, n, c⟩
      have hnil : (interval_chunk lib mode F fuel ⟨st, buffer, n, c⟩).2 = [] →
          (interval_chunk lib mode F fuel ⟨st, buffer, n, c⟩).1 = outcome.out_of_fuel := by
        cases fuel with
        | zero =>
          intro _
          unfold interval_chunk
          simp [hn]
        | succ fuel =>
          intro h0
          rw [interval_chunk] at h0
          obtain ⟨k, r, tl, h1⟩ := interval_iteration_head lib mode F ⟨st, buffer, n, c⟩
          rcases hx : interval_iteration lib mode F ⟨st, buffer, n, c⟩ with ⟨o, tr⟩
          rw [hx] at h0 h1
          simp only at h1
          subst h1
          simp only [hn, if_false] at h0
          cases o <;> simp at h0
      rcases hx : interval_chunk lib mode F fuel ⟨st, buffer, n, c⟩ with ⟨o, tr⟩
      rw [hx] at h hh hnil
      simp only at hh hnil
      rcases hh with h0 | ⟨k, r, tl, h1⟩
      · have := hnil h0
        subst this
        subst h0
        simp at h
      · subst h1
        cases o with
        | next s1 =>
          simp only [List.cons_append, List.head?_cons, Option.some.injEq] at h
          exact ⟨n, k, r, h.symm⟩
        | free_buffer st1 c1 b =>
          simp only [List.head?_cons, Option.some.injEq] at h
          exact ⟨n, k, r, h.symm⟩
        | out_of_fuel =>
          simp only [List.head?_cons, Option.some.injEq] at h
          exact ⟨n, k, r, h.symm⟩

/-- C6, amended.  Parameter change between files in `interval_loudness`.  For
a file that is opened while a session exists (every file after the one that
created the session): when `ebur128_change_parameters` returns 0, the value
every `int` result tested in `scanner.c` uses for success, the first feed of
the file starts from `frames_counter = 0`; when it returns a non-zero value
the first feed starts from the counter the previous file left. -/
theorem interval_file_parameter_change {σ : Type} (lib : ebur128 σ) (interval : ℚ)
    (mode fuel : Nat) (f : input_file σ) (s : dump_state σ) (st : σ)
    (hst : s.st = some st) (hopen : f.open_file = 0) :
    ((lib.change_parameters st f.get_channels f.get_samplerate).2 = 0 →
        ∀ ev, (interval_file lib interval mode fuel f s).2.head? = some ev →
          ∃ F n k r, ev = dump_event.add_frames 0 F n k r) ∧
      ((lib.change_parameters st f.get_channels f.get_samplerate).2 ≠ 0 →
        ∀ ev, (interval_file lib interval mode fuel f s).2.head? = some ev →
          ∃ F n k r, ev = dump_event.add_frames s.frames_counter F n k r) := by
  have hsess : interval_session lib mode f s =
      some ((lib.change_parameters st f.get_channels f.get_samplerate).1,
        if (lib.change_parameters st f.get_channels f.get_samplerate).2 = 0 then 0
        else s.frames_counter) := by
    unfold interval_session
    rw [hst]
  have key : ∀ ev, (interval_file lib interval mode fuel f s).2.head? = some ev →
      ∃ F n k r, ev = dump_event.add_frames
        (if (lib.change_parameters st f.get_channels f.get_samplerate).2 = 0 then 0
          else s.frames_counter) F n k r := by
    intro ev hev
    unfold interval_file at hev
    rw [if_neg (by simp [hopen]), hsess] at hev
    simp only at hev
    by_cases ha : f.allocate_buffer ≠ 0
    · rw [if_pos ha] at hev
      simp at hev
    · rw [if_neg ha] at hev
      obtain ⟨n, k, r, h⟩ := interval_reads_head lib mode _ fuel s.errcode _ _ _ ev hev
      exact ⟨_, n, k, r, h⟩
  constructor
  · intro h0 ev hev
    have := key ev hev
    rwa [if_pos h0] at this
  · intro h0 ev hev
    have := key ev hev
    rwa [if_neg h0] at this

theorem nothing_after_invalid_append (a b : List dump_event)
    (ha : dump_event.invalid_mode ∉ a) (hb : nothing_after_invalid b = true) :
    nothing_after_invalid (a ++ b) = true := by
  induction a with
  | nil => simpa using hb
  | cons ev a ih =>
    have h1 : dump_event.invalid_mode ∉ a := fun h => ha (List.mem_cons_of_mem _ h)
    have h2 : ev ≠ dump_event.invalid_mode := fun h => ha (h ▸ List.mem_cons_self _ _)
    cases ev with
    | add_frames c F n k r => simpa [nothing_after_invalid] using ih h1
    | reading v => simpa [nothing_after_invalid] using ih h1
    | invalid_mode => exact absurd rfl h2

/-- An iteration prints the `invalid_mode` message last, and not at all when
it returns to the loop test. -/
theorem interval_iteration_invalid_last {σ : Type} (lib : ebur128 σ) (mode F : Nat)
    (s : chunk_state σ) :
    nothing_after_invalid (interval_iteration lib mode F s).2 = true ∧
      ∀ s1, (interval_iteration lib mode F s).1 = outcome.next s1 →
        dump_event.invalid_mode ∉ (interval_iteration lib mode F s).2 := by
  unfold interval_iteration
  dsimp only
  split_ifs <;> simp [nothing_after_invalid]

/-- In a mode the `switch` does not know an iteration prints no reading. -/
theorem interval_iteration_silent {σ : Type} (lib : ebur128 σ) (mode F : Nat)
    (hmode : ¬ valid_mode lib mode) (s : chunk_state σ) :
    emissions (interval_iteration lib mode F s).2 = 0 := by
  unfold valid_mode at hmode
  push_neg at hmode
  obtain ⟨h1, h2, h3⟩ := hmode
  unfold interval_iteration
  dsimp only
  split_ifs <;> simp [emissions, dump_event.is_reading]

theorem interval_chunk_invalid_last {σ : Type} (lib : ebur128 σ) (mode F fuel : Nat) :
    ∀ s : chunk_state σ,
      nothing_after_invalid (interval_chunk lib mode F fuel s).2 = true ∧
        ∀ s1, (interval_chunk lib mode F fuel s).1 = outcome.next s1 →
          dump_event.invalid_mode ∉ (interval_chunk lib mode F fuel s).2 := by
  induction fuel with
  | zero =>
    intro s
    unfold interval_chunk
    split_ifs <;> simp [nothing_after_invalid]
  | succ fuel ih =>
    intro s
    rw [interval_chunk]
    by_cases hn : s.nr_frames_read = 0
    · simp [hn, nothing_after_invalid]
    · have hit := interval_iteration_invalid_last lib mode F s
      rcases hx : interval_iteration lib mode F s with ⟨o, tr⟩
      rw [hx] at hit
      simp only [hn, if_false]
      cases o with
      | next s2 =>
        obtain ⟨_, h2⟩ := hit
        obtain ⟨h3, h4⟩ := ih s2
        have h5 := h2 s2 rfl
        refine ⟨nothing_after_invalid_append _ _ h5 h3, ?_⟩
        intro s1 hs1 hmem
        rcases List.mem_append.mp hmem with h | h
        · exact h5 h
        · exact h4 s1 hs1 h
      | free_buffer st1 c1 b => exact ⟨hit.1, fun s1 h => by simp at h⟩
      | out_of_fuel => exact ⟨hit.1, fun s1 h => by simp at h⟩

theorem interval_chunk_silent {σ : Type} (lib : ebur128 σ) (mode F fuel : Nat)
    (hmode : ¬ valid_mode lib mode) :
    ∀ s : chunk_state σ, emissions (interval_chunk lib mode F fuel s).2 = 0 := by
  induction fuel with
  | zero =>
    intro s
    unfold interval_chunk
    split_ifs <;> simp [emissions]
  | succ fuel ih =>
    intro s
    rw [interval_chunk]
    by_cases hn : s.nr_frames_read = 0
    · simp [hn, emissions]
    · have hit := interval_iteration_silent lib mode F hmode s
      rcases hx : interval_iteration lib mode F s with ⟨o, tr⟩
      rw [hx] at hit
      simp only [hn, if_false]
      cases o with
      | next s2 => simp only [emissions_append, hit, ih s2]
      | free_buffer st1 c1 b => exact hit
      | out_of_fuel => exact hit

theorem interval_reads_invalid_last {σ : Type} (lib : ebur128 σ) (mode F fuel : Nat) (e : Int)
    (reads : List (Nat × List ℚ)) :
    ∀ (st : σ) (c : Nat),
      nothing_after_invalid (interval_reads lib mode F fuel reads st c e).2 = true := by
  induction reads with
  | nil =>
    intro st c
    simp [interval_reads, nothing_after_invalid]
  | cons r rest ih =>
    intro st c
    obtain ⟨n, buffer⟩ := r
    rw [interval_reads]
    by_cases hn : n = 0
    · simp [hn, nothing_after_invalid]
    · have hch := interval_chunk_invalid_last lib mode F fuel ⟨st, buffer, n, c⟩
      rcases hx : interval_chunk lib mode F fuel ⟨st, buffer, n, c⟩ with ⟨o, tr⟩
      rw [hx] at hch
      simp only [hn, if_false]
      cases o with
      | next s2 => exact nothing_after_invalid_append _ _ (hch.2 s2 rfl) (ih _ _)
      | free_buffer st1 c1 b => exact hch.1
      | out_of_fuel => exact hch.1

theorem interval_reads_silent {σ : Type} (lib : ebur128 σ) (mode F fuel : Nat) (e : Int)
    (hmode : ¬ valid_mode lib mode) (reads : List (Nat × List ℚ)) :
    ∀ (st : σ) (c : Nat), emissions (interval_reads lib mode F fuel reads st c e).2 = 0 := by
  induction reads with
  | nil =>
    intro st c
    simp [interval_reads, emissions]
  | cons r rest ih =>
    intro st c
    obtain ⟨n, buffer⟩ := r
    rw [interval_reads]
    by_cases hn : n = 0
    · simp [hn, emissions]
    · have hch := interval_chunk_silent lib mode F fuel hmode ⟨st, buffer, n, c⟩
      rcases hx : interval_chunk lib mode F fuel ⟨st, buffer, n, c⟩ with ⟨o, tr⟩
      rw [hx] at hch
      simp only [hn, if_false]
      cases o with
      | next s2 => simp only [emissions_append, hch, ih]
      | free_buffer st1 c1 b => exact hch
      | out_of_fuel => exact hch

theorem interval_file_invalid_last {σ : Type} (lib : ebur128 σ) (interval : ℚ)
    (mode fuel : Nat) (f : input_file σ) (s : dump_state σ) :
    nothing_after_invalid (interval_file lib interval mode fuel f s).2 = true := by
  unfold interval_file
  by_cases ho : f.open_file ≠ 0
  · rw [if_pos ho]
    rfl
  · rw [if_neg ho]
    cases interval_session lib mode f s with
    | none => rfl
    | some p =>
      by_cases ha : f.allocate_buffer ≠ 0
      · simp only [if_pos ha]
        rfl
      · simp only [if_neg ha]
        exact interval_reads_invalid_last lib mode _ fuel _ _ _ _

theorem interval_file_silent {σ : Type} (lib : ebur128 σ) (interval : ℚ)
    (mode fuel : Nat) (hmode : ¬ valid_mode lib mode) (f : input_file σ) (s : dump_state σ) :
    emissions (interval_file lib interval mode fuel f s).2 = 0 := by
  unfold interval_file
  by_cases ho : f.open_file ≠ 0
  · rw [if_pos ho]
    rfl
  · rw [if_neg ho]
    cases interval_session lib mode f s with
    | none => rfl
    | some p =>
      by_cases ha : f.allocate_buffer ≠ 0
      · simp only [if_pos ha]
        rfl
      · simp only [if_neg ha]
        exact interval_reads_silent lib mode _ fuel _ hmode _ _ _

theorem interval_files_silent {σ : Type} (lib : ebur128 σ) (interval : ℚ)
    (mode fuel : Nat) (hmode : ¬ valid_mode lib mode) (files : List (input_file σ)) :
    ∀ s : dump_state σ, emissions (interval_files lib interval mode fuel files s).2 = 0 := by
  induction files with
  | nil =>
    intro s
    simp [interval_files, emissions]
  | cons f rest ih =>
    intro s
    have hf := interval_file_silent lib interval mode fuel hmode f s
    rw [interval_files]
    rcases hx : interval_file lib interval mode fuel f s with ⟨o, tr⟩
    rw [hx] at hf
    cases o with
    | none => exact hf
    | some s1 => simp only [emissions_append, hf, ih]

/-- After a successful `parse_interval` the mode is set. -/
theorem parse_interval_sets_mode {σ : Type} (lib : ebur128 σ) (gd : gain_data σ)
    (option_name : String) (v : ℚ)
    (hM : lib.EBUR128_MODE_M ≠ 0) (hS : lib.EBUR128_MODE_S ≠ 0) (hI : lib.EBUR128_MODE_I ≠ 0)
    (h : (parse_interval lib gd option_name v).1 = true) :
    (parse_interval lib gd option_name v).2.mode ≠ 0 := by
  unfold parse_interval at h ⊢
  dsimp only at h ⊢
  split_ifs at h ⊢ <;> simp_all

/-- One file of one second in the unset mode 0, before a session exists: the
48000 frames are fed and the invalid mode is noticed at the boundary. -/
theorem unset_mode_first_file :
    interval_file (counting_lib 2) 1 0 2 (plain_file "a.wav" [(48000, [])]) ⟨none, 0, 0⟩ =
      (some ⟨some 48000, 0, 0⟩,
        [dump_event.add_frames 0 48000 48000 48000 0, dump_event.invalid_mode]) := by
  have hF : ∀ st : Nat, frames_needed 1 ((counting_lib 2).samplerate st) = 48000 :=
    fun _ => frames_needed_one_second
  simp only [interval_file, interval_session, channel_map_fallback, hF]
  simp [interval_reads, interval_chunk, interval_iteration, plain_file, counting_lib,
    size_add, size_sub, size_mul, SIZE_MOD]

/-- The same file met with the session the first file left. -/
theorem unset_mode_second_file :
    interval_file (counting_lib 2) 1 0 2 (plain_file "a.wav" [(48000, [])])
        ⟨some 48000, 0, 0⟩ =
      (some ⟨some 96000, 0, 0⟩,
        [dump_event.add_frames 0 48000 48000 48000 0, dump_event.invalid_mode]) := by
  have hF : ∀ st : Nat, frames_needed 1 ((counting_lib 2).samplerate st) = 48000 :=
    fun _ => frames_needed_one_second
  simp only [interval_file, interval_session, channel_map_fallback, hF]
  simp [interval_reads, interval_chunk, interval_iteration, plain_file, counting_lib,
    size_add, size_sub, size_mul, SIZE_MOD]

theorem unset_mode_two_files :
    interval_files (counting_lib 2) 1 0 2
        [plain_file "a.wav" [(48000, [])], plain_file "a.wav" [(48000, [])]] ⟨none, 0, 0⟩ =
      (some ⟨some 96000, 0, 0⟩,
        [dump_event.add_frames 0 48000 48000 48000 0, dump_event.invalid_mode,
          dump_event.add_frames 0 48000 48000 48000 0, dump_event.invalid_mode]) := by
  rw [interval_files, unset_mode_first_file]
  dsimp only
  rw [interval_files, unset_mode_second_file]
  dsimp only
  rw [interval_files]
  rfl

/-- C8, the claim as stated fails: with an unset mode (0) and two files of one
second each, the invalid mode is noticed at the boundary of the first file,
yet the second file is opened and its 48000 frames are fed, and
`interval_loudness` returns 0. -/
theorem invalid_mode_later_file_fed :
    interval_loudness (counting_lib 2) 0 2
        (plain_gd (fun _ => plain_file "a.wav" [(48000, [])]) 1 0) 2 =
      (some 0, [dump_event.add_frames 0 48000 48000 48000 0, dump_event.invalid_mode,
        dump_event.add_frames 0 48000 48000 48000 0, dump_event.invalid_mode]) := by
  unfold interval_loudness
  rw [if_neg (by decide)]
  show (Option.map (fun s => s.errcode) (interval_files (counting_lib 2) 1 0 2
      [plain_file "a.wav" [(48000, [])], plain_file "a.wav" [(48000, [])]] ⟨none, 0, 0⟩).1,
    (interval_files (counting_lib 2) 1 0 2
      [plain_file "a.wav" [(48000, [])], plain_file "a.wav" [(48000, [])]] ⟨none, 0, 0⟩).2) = _
  rw [unset_mode_two_files]
  rfl

/-- C8, amended.  When the mode is not one of momentary, shortterm and
integrated, `interval_loudness` prints no reading for any file, whatever the
files and the fuel, and in every file no frame of that file is fed after the
invalid mode has been noticed in it (the `invalid_mode` message is the last
event of the file); and a second mode option is rejected by `parse_interval`:
the call returns FALSE and leaves `gd` as the first option set it. -/
theorem invalid_mode_silent {σ : Type} (lib : ebur128 σ) (init_library : Int) (fuel : Nat)
    (gd : gain_data σ) (no_files : Nat)
    (hmode : ¬ valid_mode lib gd.mode)
    (hM : lib.EBUR128_MODE_M ≠ 0) (hS : lib.EBUR128_MODE_S ≠ 0) (hI : lib.EBUR128_MODE_I ≠ 0) :
    emissions (interval_loudness lib init_library fuel gd no_files).2 = 0 ∧
      (∀ f s, nothing_after_invalid
        (interval_file lib gd.interval gd.mode fuel f s).2 = true) ∧
      (∀ (gd0 : gain_data σ) (name1 name2 : String) (v1 v2 : ℚ),
        (parse_interval lib gd0 name1 v1).1 = true →
        parse_interval lib (parse_interval lib gd0 name1 v1).2 name2 v2
          = (false, (parse_interval lib gd0 name1 v1).2)) := by
  refine ⟨?_, ?_, ?_⟩
  · unfold interval_loudness
    split_ifs
    · rfl
    · exact interval_files_silent lib gd.interval gd.mode fuel hmode _ _
  · intro f s
    exact interval_file_invalid_last lib gd.interval gd.mode fuel f s
  · intro gd0 name1 name2 v1 v2 h
    have hm := parse_interval_sets_mode lib gd0 name1 v1 hM hS hI h
    generalize (parse_interval lib gd0 name1 v1).2 = gd1 at hm
    unfold parse_interval
    rw [if_pos hm]

theorem peak_sample_eq_max (p x : ℚ) (hp : 0 ≤ p) : peak_sample p x = max p |x| := by
  unfold peak_sample
  by_cases h1 : x > p
  · rw [if_pos h1]
    have hx : |x| = x := abs_of_nonneg (by linarith)
    rw [hx, max_eq_right (le_of_lt h1)]
  · rw [if_neg h1]
    by_cases h2 : -x > p
    · rw [if_pos h2]
      have hx : |x| = -x := abs_of_neg (by linarith)
      rw [hx, max_eq_right (le_of_lt h2)]
    · rw [if_neg h2]
      have hx : |x| ≤ p := abs_le.mpr ⟨by linarith, by linarith⟩
      rw [max_eq_left hx]

theorem peak_fold_nonneg (xs : List ℚ) :
    ∀ p : ℚ, 0 ≤ p → 0 ≤ xs.foldl (fun p x => max p |x|) p := by
  induction xs with
  | nil => intro p hp; exact hp
  | cons x xs ih =>
    intro p hp
    exact ih _ (le_max_of_le_left hp)

theorem peak_fold_eq (xs : List ℚ) :
    ∀ p : ℚ, 0 ≤ p → xs.foldl peak_sample p = xs.foldl (fun p x => max p |x|) p := by
  induction xs with
  | nil => intro p _; rfl
  | cons x xs ih =>
    intro p hp
    simp only [List.foldl_cons]
    rw [peak_sample_eq_max p x hp]
    exact ih _ (le_max_of_le_left hp)

/-- The read loop of `calculate_gain_of_file` with tag computation requested and
every feed accepted: from a peak `p ≥ 0` it reaches the maximum of `p` and the
absolute values of all samples of the concatenated chunks. -/
theorem gain_reads_peak {σ : Type} (lib : ebur128 σ)
    (hfeed : ∀ st buf k, (lib.add_frames_float st buf k).2 = 0)
    (hch : ∀ st buf k, lib.channels (lib.add_frames_float st buf k).1 = lib.channels st)
    (reads : List (Nat × List ℚ)) (hpos : ∀ r ∈ reads, r.1 ≠ 0) :
    ∀ (st : σ) (p : ℚ) (all : Nat), 0 ≤ p →
      (gain_reads lib true reads st p all).peak
        = (reads.flatMap (chunk_samples (lib.channels st))).foldl (fun p x => max p |x|) p ∧
      (gain_reads lib true reads st p all).failed = false := by
  induction reads with
  | nil =>
    intro st p all _
    simp [gain_reads]
  | cons r rest ih =>
    intro st p all hp
    obtain ⟨n, buffer⟩ := r
    have hn : n ≠ 0 := hpos (n, buffer) (List.mem_cons_self _ _)
    rw [gain_reads]
    simp only [hn, if_false, if_true, hfeed, ne_eq, not_true_eq_false]
    have hp1 : 0 ≤ peak_scan p buffer (size_mul n (lib.channels st)) := by
      unfold peak_scan
      rw [peak_fold_eq _ p hp]
      exact peak_fold_nonneg _ p hp
    obtain ⟨h1, h2⟩ := ih (fun r hr => hpos r (List.mem_cons_of_mem _ hr))
      (lib.add_frames_float st buffer n).1
      (peak_scan p buffer (size_mul n (lib.channels st))) (size_add all n) hp1
    refine ⟨?_, h2⟩
    rw [h1, hch]
    simp only [List.flatMap_cons, List.foldl_append]
    unfold peak_scan chunk_samples
    rw [peak_fold_eq _ p hp]

/-- C5.  Peak tracking in `calculate_gain_of_file` is chunk-split invariant.
With tag computation requested and every feed accepted, the peak the read loop
reaches from 0 is the maximum of 0 and the absolute values of all samples of
the concatenation of the chunks; two chunk sequences with the same
concatenation therefore give the same peak. -/
theorem peak_chunk_split_invariant {σ : Type} (lib : ebur128 σ)
    (hfeed : ∀ st buf k, (lib.add_frames_float st buf k).2 = 0)
    (hch : ∀ st buf k, lib.channels (lib.add_frames_float st buf k).1 = lib.channels st)
    (reads reads1 : List (Nat × List ℚ)) (st : σ)
    (hpos : ∀ r ∈ reads, r.1 ≠ 0) (hpos1 : ∀ r ∈ reads1, r.1 ≠ 0) :
    (gain_reads lib true reads st 0 0).peak
        = (reads.flatMap (chunk_samples (lib.channels st))).foldl (fun p x => max p |x|) 0 ∧
      (reads.flatMap (chunk_samples (lib.channels st))
          = reads1.flatMap (chunk_samples (lib.channels st)) →
        (gain_reads lib true reads st 0 0).peak = (gain_reads lib true reads1 st 0 0).peak) := by
  have h := (gain_reads_peak lib hfeed hch reads hpos st 0 0 (le_refl 0)).1
  have h1 := (gain_reads_peak lib hfeed hch reads1 hpos1 st 0 0 (le_refl 0)).1
  refine ⟨h, ?_⟩
  intro heq
  rw [h, h1, heq]

theorem job_setup {σ : Type} (lib : ebur128 σ) (gd : gain_data σ) (i : Nat) :
    same_setup gd (calculate_gain_of_file lib gd i) := by
  unfold calculate_gain_of_file same_setup
  dsimp only
  repeat' split
  all_goals exact ⟨rfl, rfl, rfl⟩

theorem job_frame {σ : Type} (lib : ebur128 σ) (gd : gain_data σ) (i j : Nat) (hij : i ≠ j) :
    slot (calculate_gain_of_file lib gd i) j = slot gd j := by
  have hji : j ≠ i := fun h => hij h.symm
  unfold calculate_gain_of_file slot
  dsimp only
  repeat' split
  all_goals simp [Function.update, hji]

theorem job_local {σ : Type} (lib : ebur128 σ) (gd gd1 : gain_data σ) (j : Nat)
    (hs : same_setup gd gd1) (hslot : slot gd1 j = slot gd j) :
    slot (calculate_gain_of_file lib gd1 j) j = slot (calculate_gain_of_file lib gd j) j := by
  obtain ⟨h1, h2, h3⟩ := hs
  unfold slot at hslot
  simp only [Prod.mk.injEq] at hslot
  obtain ⟨h4, h5, h6⟩ := hslot
  unfold calculate_gain_of_file slot
  dsimp only
  rw [h1, h2, h3]
  repeat' split
  all_goals simp [Function.update, h4, h5, h6]

theorem same_setup_trans {σ : Type} {a b c : gain_data σ} (h1 : same_setup a b)
    (h2 : same_setup b c) : same_setup a c :=
  ⟨h2.1.trans h1.1, h2.2.1.trans h1.2.1, h2.2.2.trans h1.2.2⟩

theorem run_pool_setup {σ : Type} (lib : ebur128 σ) (schedule : List Nat) :
    ∀ gd : gain_data σ, same_setup gd (run_pool lib schedule gd) := by
  induction schedule with
  | nil => intro gd; exact ⟨rfl, rfl, rfl⟩
  | cons i rest ih =>
    intro gd
    exact same_setup_trans (job_setup lib gd i) (ih _)

/-- Jobs for other indices leave the slots of `j` alone. -/
theorem run_pool_frame {σ : Type} (lib : ebur128 σ) (schedule : List Nat) (j : Nat)
    (hj : j ∉ schedule) :
    ∀ gd : gain_data σ, slot (run_pool lib schedule gd) j = slot gd j := by
  induction schedule with
  | nil => intro gd; rfl
  | cons i rest ih =>
    intro gd
    have hij : i ≠ j := fun h => hj (h ▸ List.mem_cons_self _ _)
    have hrest : j ∉ rest := fun h => hj (List.mem_cons_of_mem _ h)
    show slot (run_pool lib rest (calculate_gain_of_file lib gd i)) j = slot gd j
    rw [ih hrest, job_frame lib gd i j hij]

/-- Whatever the order of the jobs, the slots of `j` end up as the job for `j`
alone would leave them. -/
theorem run_pool_slot {σ : Type} (lib : ebur128 σ) (schedule : List Nat) (j : Nat)
    (hnodup : schedule.Nodup) (hj : j ∈ schedule) :
    ∀ gd : gain_data σ,
      slot (run_pool lib schedule gd) j = slot (calculate_gain_of_file lib gd j) j := by
  induction schedule with
  | nil => simp at hj
  | cons i rest ih =>
    intro gd
    obtain ⟨hi, hrest⟩ := List.nodup_cons.mp hnodup
    show slot (run_pool lib rest (calculate_gain_of_file lib gd i)) j = _
    by_cases hij : i = j
    · subst hij
      exact run_pool_frame lib rest i hi _
    · have hjr : j ∈ rest := by
        rcases List.mem_cons.mp hj with h | h
        · exact absurd h.symm hij
        · exact h
      rw [ih hrest hjr]
      exact job_local lib gd _ j (job_setup lib gd i) (job_frame lib gd i j hij)

/-- A job whose own collaborator calls all succeed stores the loudness the
library measured. -/
theorem job_success {σ : Type} (lib : ebur128 σ) (gd : gain_data σ) (j : Nat) (st0 : σ)
    (hopen : (gd.file_names j).open_file = 0)
    (hinit : lib.init (gd.file_names j).get_channels (gd.file_names j).get_samplerate
      (lib.EBUR128_MODE_I ||| (if gd.calculate_lra then lib.EBUR128_MODE_LRA else 0)) = some st0)
    (halloc : (gd.file_names j).allocate_buffer = 0)
    (hreads : (gain_reads lib gd.tag_rg (gd.file_names j).read_frames
      (channel_map_fallback lib ((gd.file_names j).set_channel_map st0).2
        ((gd.file_names j).set_channel_map st0).1) 0 0).failed = false) :
    slot (calculate_gain_of_file lib gd j) j =
      (some (gain_reads lib gd.tag_rg (gd.file_names j).read_frames
          (channel_map_fallback lib ((gd.file_names j).set_channel_map st0).2
            ((gd.file_names j).set_channel_map st0).1) 0 0).st,
        lib.loudness_global (gain_reads lib gd.tag_rg (gd.file_names j).read_frames
          (channel_map_fallback lib ((gd.file_names j).set_channel_map st0).2
            ((gd.file_names j).set_channel_map st0).1) 0 0).st,
        (gain_reads lib gd.tag_rg (gd.file_names j).read_frames
          (channel_map_fallback lib ((gd.file_names j).set_channel_map st0).2
            ((gd.file_names j).set_channel_map st0).1) 0 0).peak) := by
  unfold calculate_gain_of_file slot
  dsimp only
  rw [if_neg (by simp [hopen]), hinit]
  dsimp only
  rw [if_neg (by simp [halloc]), if_neg (by simp [hreads])]
  simp

/-- C3.  Per-job isolation.  For every order in which the pool runs the jobs
of the files `0 .. no_files - 1`, the result slots of index `j` after the join
are the slots the job for `j` alone leaves; a job for another index leaves the
slots of `j` unchanged, whether it succeeds or fails; and when the collaborator
calls made for file `j` succeed, its slot holds the loudness the library
measured for it, whatever became of the other files. -/
theorem job_isolation {σ : Type} (lib : ebur128 σ) (gd : gain_data σ) (schedule : List Nat)
    (no_files j : Nat)
    (hperm : schedule.Perm (List.range no_files)) (hj : j < no_files) :
    slot (run_pool lib schedule gd) j = slot (calculate_gain_of_file lib gd j) j ∧
      (∀ (gd1 : gain_data σ) (i : Nat), i ≠ j →
        slot (calculate_gain_of_file lib gd1 i) j = slot gd1 j) ∧
      (∀ st0 : σ, (gd.file_names j).open_file = 0 →
        lib.init (gd.file_names j).get_channels (gd.file_names j).get_samplerate
          (lib.EBUR128_MODE_I ||| (if gd.calculate_lra then lib.EBUR128_MODE_LRA else 0))
            = some st0 →
        (gd.file_names j).allocate_buffer = 0 →
        (gain_reads lib gd.tag_rg (gd.file_names j).read_frames
          (channel_map_fallback lib ((gd.file_names j).set_channel_map st0).2
            ((gd.file_names j).set_channel_map st0).1) 0 0).failed = false →
        (run_pool lib schedule gd).segment_loudness j =
          lib.loudness_global (gain_reads lib gd.tag_rg (gd.file_names j).read_frames
            (channel_map_fallback lib ((gd.file_names j).set_channel_map st0).2
              ((gd.file_names j).set_channel_map st0).1) 0 0).st) := by
  have hnodup : schedule.Nodup := hperm.nodup_iff.mpr (List.nodup_range no_files)
  have hmem : j ∈ schedule := hperm.mem_iff.mpr (List.mem_range.mpr hj)
  have h1 := run_pool_slot lib schedule j hnodup hmem gd
  refine ⟨h1, fun gd1 i hij => job_frame lib gd1 i j hij, ?_⟩
  intro st0 hopen hinit halloc hreads
  have h2 := job_success lib gd j st0 hopen hinit halloc hreads
  rw [h2] at h1
  unfold slot at h1
  simp only [Prod.mk.injEq] at h1
  exact h1.2.1

/-- C4, amended.  ReplayGain formula.  Every line of four numbers `loudness_or_lra`
prints and every `set_rg_info` call it makes belongs to a file `i` and carries
the track gain `-18.0 - segment_loudness[i]`, the track peak
`segment_peaks[i]` unchanged, the album gain `-18.0 - gated_loudness` with the
loudness returned by `ebur128_loudness_global_multiple`, and the album peak
`global_peak` unchanged; behind the open gate and with tagging requested both
are produced for every file; and for a loudness of -23.0 the gain is 5.0. -/
theorem replaygain_formula {σ : Type} (lib : ebur128 σ) (init_library : Int)
    (schedule : List Nat) (gd : gain_data σ) (no_files : Nat) :
    (∀ tg tp ag ap,
        scan_event.stdout_line tg tp ag ap
          ∈ (loudness_or_lra lib init_library schedule gd no_files).2.2 →
        ∃ i, i < no_files ∧
          tg = double.sub (double.val (-18)) ((run_pool lib schedule gd).segment_loudness i) ∧
          tp = (run_pool lib schedule gd).segment_peaks i ∧
          ag = double.sub (double.val (-18)) (lib.loudness_global_multiple
            ((List.range no_files).filterMap (run_pool lib schedule gd).library_states)) ∧
          ap = global_peak (run_pool lib schedule gd) no_files) ∧
      (∀ name tg tp album ag ap,
        scan_event.set_rg_info name tg tp album ag ap
          ∈ (loudness_or_lra lib init_library schedule gd no_files).2.2 →
        ∃ i, i < no_files ∧ name = ((run_pool lib schedule gd).file_names i).name ∧
          tg = double.sub (double.val (-18)) ((run_pool lib schedule gd).segment_loudness i) ∧
          tp = (run_pool lib schedule gd).segment_peaks i ∧ album = 1 ∧
          ag = double.sub (double.val (-18)) (lib.loudness_global_multiple
            ((List.range no_files).filterMap (run_pool lib schedule gd).library_states)) ∧
          ap = global_peak (run_pool lib schedule gd) no_files) ∧
      (init_library = 0 → all_states (run_pool lib schedule gd) no_files = true →
        (run_pool lib schedule gd).tag_rg = true → ∀ i, i < no_files →
        scan_event.stdout_line
            (double.sub (double.val (-18)) ((run_pool lib schedule gd).segment_loudness i))
            ((run_pool lib schedule gd).segment_peaks i)
            (double.sub (double.val (-18)) (lib.loudness_global_multiple
              ((List.range no_files).filterMap (run_pool lib schedule gd).library_states)))
            (global_peak (run_pool lib schedule gd) no_files)
          ∈ (loudness_or_lra lib init_library schedule gd no_files).2.2 ∧
        scan_event.set_rg_info ((run_pool lib schedule gd).file_names i).name
            (double.sub (double.val (-18)) ((run_pool lib schedule gd).segment_loudness i))
            ((run_pool lib schedule gd).segment_peaks i) 1
            (double.sub (double.val (-18)) (lib.loudness_global_multiple
              ((List.range no_files).filterMap (run_pool lib schedule gd).library_states)))
            (global_peak (run_pool lib schedule gd) no_files)
          ∈ (loudness_or_lra lib init_library schedule gd no_files).2.2) ∧
      double.sub (double.val (-18)) (double.val (-23)) = double.val 5 := by
  refine ⟨?_, ?_, ?_, ?_⟩
  · intro tg tp ag ap h
    unfold loudness_or_lra at h
    split_ifs at h
    · simp at h
    · simp only [segment_lines, gated_part, destroy_states, tag_files] at h
      split_ifs at h <;> simp at h
      all_goals
        obtain ⟨i, hi, h1, h2, h3, h4⟩ := h
        exact ⟨i, hi, h1, h2, h3, h4⟩
  · intro name tg tp album ag ap h
    unfold loudness_or_lra at h
    split_ifs at h
    · simp at h
    · simp only [segment_lines, gated_part, destroy_states, tag_files] at h
      split_ifs at h <;> simp at h
      all_goals
        obtain ⟨i, hi, h1, h2, h3, h4, h5, h6⟩ := h
        exact ⟨i, hi, h1, h2, h3, h4, h5, h6⟩
  · intro h0 hall htag i hi
    unfold loudness_or_lra
    rw [if_neg (by simp [h0])]
    simp only [gated_part, tag_files, hall, htag, if_true]
    constructor
    · simp only [List.mem_append, List.mem_flatMap, List.mem_range, List.mem_cons]
      exact Or.inl (Or.inr (Or.inr ⟨i, hi, Or.inl rfl⟩))
    · simp only [List.mem_append, List.mem_flatMap, List.mem_range, List.mem_cons]
      exact Or.inl (Or.inr (Or.inr ⟨i, hi, Or.inr (Or.inl rfl)⟩))
  · simp only [double.sub]
    norm_num

/-- C4, the claim as stated fails: for one file of one stereo frame with the
samples 1/2 and -3/4, whose measured loudness and gated loudness are -23.0, the
track gain and the album gain printed and passed to `set_rg_info` are 5.0, not
-5.0 (the peaks 3/4 pass through unchanged). -/
theorem gain_of_minus_23_is_5 :
    (run_pool (counting_lib 2) [0]
        (tagging_gd (fun _ => plain_file "a.wav" [(1, [1 / 2, -3 / 4])]))).segment_loudness 0
        = double.val (-23) ∧
      (loudness_or_lra (counting_lib 2) 0 [0]
        (tagging_gd (fun _ => plain_file "a.wav" [(1, [1 / 2, -3 / 4])])) 1).2.2 =
      [scan_event.global_loudness (double.val (-23)),
        scan_event.stdout_line (double.val 5) (3 / 4) (double.val 5) (3 / 4),
        scan_event.set_rg_info "a.wav" (double.val 5) (3 / 4) 1 (double.val 5) (3 / 4),
        scan_event.destroy 0] := by
  constructor
  · simp [run_pool, calculate_gain_of_file, tagging_gd, plain_file, counting_lib, gain_reads,
      channel_map_fallback]
  · simp [loudness_or_lra, run_pool, calculate_gain_of_file, tagging_gd, plain_file,
      counting_lib, segment_lines, gated_part, destroy_states, tag_files, all_states,
      global_peak, gain_reads, peak_scan, peak_sample, channel_map_fallback, size_mul,
      size_add, SIZE_MOD, double.sub, List.range, List.range.loop, Function.update]
    norm_num

/-- The gate as the source has it: when the slot `library_states[i]` of some
file is still NULL after the pool (its file could not be opened, or
`ebur128_init` failed), no multi-session function is called, no line is
printed on standard output and no tag is written. -/
theorem gate_closed_without_session {σ : Type} (lib : ebur128 σ) (init_library : Int)
    (schedule : List Nat) (gd : gain_data σ) (no_files i : Nat) (hi : i < no_files)
    (hnull : (run_pool lib schedule gd).library_states i = none) :
    ∀ ev ∈ (loudness_or_lra lib init_library schedule gd no_files).2.2,
      (∃ k v, ev = scan_event.segment k v) ∨ (∃ k, ev = scan_event.destroy k) := by
  intro ev hev
  have hgate : all_states (run_pool lib schedule gd) no_files = false := by
    unfold all_states
    rw [List.all_eq_false]
    exact ⟨i, List.mem_range.mpr hi, by simp [hnull]⟩
  unfold loudness_or_lra at hev
  split_ifs at hev
  · simp at hev
  · simp only [gated_part, hgate, Bool.false_eq_true, if_false, List.append_nil,
      List.mem_append] at hev
    rcases hev with h | h
    · unfold segment_lines at h
      split_ifs at h
      · obtain ⟨k, _, hk⟩ := List.mem_map.mp h
        exact Or.inl ⟨_, _, hk.symm⟩
      · simp at h
    · unfold destroy_states at h
      obtain ⟨k, _, hk⟩ := List.mem_map.mp h
      exact Or.inr ⟨_, hk.symm⟩

/-- C2, failing input.  Two files with tagging requested; the job of `b.wav`
fails at `input_allocate_buffer`, after its session was stored: its loudness
stays NaN and `errcode` is 1, yet the gate is open, so
`ebur128_loudness_global_multiple` is called and both files get an output line
and a `set_rg_info` call, `b.wav` with a NaN track gain. -/
theorem gate_open_after_failed_job :
    (run_pool (counting_lib 2) [0, 1] (tagging_gd one_unbuffered)).errcode = some 1 ∧
      (run_pool (counting_lib 2) [0, 1] (tagging_gd one_unbuffered)).segment_loudness 1
        = double.nan ∧
      (loudness_or_lra (counting_lib 2) 0 [0, 1] (tagging_gd one_unbuffered) 2).2.2 =
        [scan_event.segment 2 double.nan,
          scan_event.global_loudness (double.val (-23)),
          scan_event.stdout_line (double.val 5) (3 / 4) (double.val 5) (3 / 4),
          scan_event.set_rg_info "a.wav" (double.val 5) (3 / 4) 1 (double.val 5) (3 / 4),
          scan_event.stdout_line double.nan 0 (double.val 5) (3 / 4),
          scan_event.set_rg_info "b.wav" double.nan 0 1 (double.val 5) (3 / 4),
          scan_event.destroy 0, scan_event.destroy 1] := by
  refine ⟨?_, ?_, ?_⟩
  · simp [run_pool, calculate_gain_of_file, tagging_gd, one_unbuffered, plain_file,
      unbuffered_file, counting_lib, gain_reads, channel_map_fallback]
  · simp [run_pool, calculate_gain_of_file, tagging_gd, one_unbuffered, plain_file,
      unbuffered_file, counting_lib, gain_reads, channel_map_fallback, Function.update]
  · simp [loudness_or_lra, run_pool, calculate_gain_of_file, tagging_gd, one_unbuffered,
      plain_file, unbuffered_file,
      counting_lib, segment_lines, gated_part, destroy_states, tag_files, all_states,
      global_peak, gain_reads, peak_scan, peak_sample, channel_map_fallback, size_mul,
      size_add, SIZE_MOD, double.sub, double.ne_self, List.range, List.range.loop,
      Function.update]
    norm_num

/-- C7, failing input.  One file that cannot be opened.  In batch mode the job
fails (`gd->errcode` is 1) and `main` returns 0; in streaming mode
`interval_loudness` returns 1 and `main`, which drops that value, returns 0. -/
theorem exit_status_ignores_failure :
    (calculate_gain_of_file (counting_lib 2)
        (plain_gd (fun _ => unreadable_file "a.wav") 0 0) 0).errcode = some 1 ∧
      main (counting_lib 2) false true 1 0 [0] 0
        (plain_gd (fun _ => unreadable_file "a.wav") 0 0) = (some 0, [], []) ∧
      (interval_loudness (counting_lib 2) 0 0
        (plain_gd (fun _ => unreadable_file "a.wav") 1 1) 1).1 = some 1 ∧
      main (counting_lib 2) false true 1 0 [0] 0
        (plain_gd (fun _ => unreadable_file "a.wav") 1 1) = (some 0, [], []) := by
  refine ⟨?_, ?_, ?_, ?_⟩
  · simp [calculate_gain_of_file, plain_gd, unreadable_file]
  · simp [main, loudness_or_lra, run_pool, calculate_gain_of_file, plain_gd, unreadable_file,
      segment_lines, gated_part, destroy_states, all_states, List.range, List.range.loop,
      Function.update]
  · simp [interval_loudness, interval_files, interval_file, plain_gd, unreadable_file,
      List.range, List.range.loop]
  · simp [main, interval_loudness, interval_files, interval_file, plain_gd, unreadable_file,
      List.range, List.range.loop]

/-- C6, the claim as stated fails.  A second file of 10 frames met with the
counter at 100, one-second interval at 48 kHz.  When
`ebur128_change_parameters` returns the failure value 1 (the adaptation is
rejected) the first feed of the file starts from the counter 100, not from 0;
when it returns 0 (the adaptation is accepted) the first feed starts from 0,
the counter is not kept. -/
theorem rejected_change_keeps_counter :
    ((counting_lib 1).change_parameters 0 2 48000).2 = 1 ∧
      (interval_file (counting_lib 1) 1 1 10 (plain_file "b.wav" [(10, [])])
        ⟨some 0, 100, 0⟩).2 = [dump_event.add_frames 100 48000 10 10 0] ∧
      ((counting_lib 0).change_parameters 0 2 48000).2 = 0 ∧
      (interval_file (counting_lib 0) 1 1 10 (plain_file "b.wav" [(10, [])])
        ⟨some 0, 100, 0⟩).2 = [dump_event.add_frames 0 48000 10 10 0] := by
  have hF : ∀ (r : Int) (st : Nat), frames_needed 1 ((counting_lib r).samplerate st) = 48000 :=
    fun _ _ => frames_needed_one_second
  refine ⟨rfl, ?_, rfl, ?_⟩
  · simp only [interval_file, interval_session, channel_map_fallback, hF]
    simp [interval_reads, interval_chunk, interval_iteration, plain_file, counting_lib,
      size_add, size_sub, size_mul, SIZE_MOD]
  · simp only [interval_file, interval_session, channel_map_fallback, hF]
    simp [interval_reads, interval_chunk, interval_iteration, plain_file, counting_lib,
      size_add, size_sub, size_mul, SIZE_MOD]

/-! ## Witnesses -/

/-- Witness of C1: one second at 48 kHz delivered as 20000 + 28000 frames gives
one reading and leaves the counter at 0. -/
theorem interval_reads_count_witness :
    (∀ r ∈ [((20000 : Nat), ([] : List ℚ)), (28000, [])], 0 < r.1) ∧
      (∀ r ∈ [((20000 : Nat), ([] : List ℚ)), (28000, [])], 48000 + r.1 ≤ SIZE_MOD) ∧
      ∃ st1, (interval_reads (counting_lib 2) 1 48000 48000
          [(20000, []), (28000, [])] 0 0 0).1
          = some ⟨some st1,
            (0 + ([((20000 : Nat), ([] : List ℚ)), (28000, [])].map Prod.fst).sum) % 48000, 0⟩ ∧
        emissions (interval_reads (counting_lib 2) 1 48000 48000
          [(20000, []), (28000, [])] 0 0 0).2
          = (0 + ([((20000 : Nat), ([] : List ℚ)), (28000, [])].map Prod.fst).sum) / 48000 :=
  ⟨by simp, by simp [SIZE_MOD],
    interval_reads_count (counting_lib 2) 1 48000 48000 0 (Or.inl rfl) (fun _ _ _ => rfl)
      (by decide) [(20000, []), (28000, [])] 0 0 (by simp) (by simp) (by decide)
      (by simp [SIZE_MOD])⟩

/-- Witness of C9: two files of 20000 + 28000 frames, one-second interval at
48 kHz. -/
theorem interval_loudness_counter_bound_witness :
    (∀ st, 1 ≤ frames_needed
        (plain_gd (fun _ => plain_file "a.wav" [(20000, []), (28000, [])]) 1 1).interval
        ((counting_lib 2).samplerate st)) ∧
      ((∀ c F n k r,
        dump_event.add_frames c F n k r ∈ (interval_loudness (counting_lib 2) 0 48000
          (plain_gd (fun _ => plain_file "a.wav" [(20000, []), (28000, [])]) 1 1) 2).2 →
        c < F ∧ 1 ≤ k ∧ k ≤ n ∧ (F ≤ size_add c n → c + k = F)) ∧
      (∀ (F fuel1 : Nat) (s s1 : chunk_state Nat), s.frames_counter < F → F < SIZE_MOD →
        s.nr_frames_read < SIZE_MOD →
        (interval_chunk (counting_lib 2)
          (plain_gd (fun _ => plain_file "a.wav" [(20000, []), (28000, [])]) 1 1).mode
          F fuel1 s).1 = outcome.next s1 →
        fed_frames (interval_chunk (counting_lib 2)
          (plain_gd (fun _ => plain_file "a.wav" [(20000, []), (28000, [])]) 1 1).mode
          F fuel1 s).2 = s.nr_frames_read)) :=
  ⟨fun _ => by
      show 1 ≤ frames_needed 1 48000
      rw [frames_needed_one_second]
      decide,
    interval_loudness_counter_bound (counting_lib 2) 0 48000
      (plain_gd (fun _ => plain_file "a.wav" [(20000, []), (28000, [])]) 1 1) 2
      (fun _ => by
        show 1 ≤ frames_needed 1 48000
        rw [frames_needed_one_second]
        decide)
      (fun _ _ _ => rfl) (fun _ _ _ => rfl) (fun _ _ _ _ => rfl) (fun _ _ _ => rfl)⟩

/-- Witness of C10: an interval of `2 ^ -20` seconds at 48000 Hz, a chunk of
1024 frames. -/
theorem zero_length_window_witness :
    (0 : ℚ) < 1 / 2 ^ 20 ∧ (1 / 2 ^ 20 : ℚ) * ((48000 : Nat) : ℚ) ≤ 1 / 2 - 1 / 2 ^ 53 ∧
      ((parse_interval (counting_lib 2) (plain_gd (fun _ => plain_file "a.wav" []) 0 0)
          "-m" (1 / 2 ^ 20)).1 = true ∧
      (parse_interval (counting_lib 2) (plain_gd (fun _ => plain_file "a.wav" []) 0 0)
          "-m" (1 / 2 ^ 20)).2.interval = 1 / 2 ^ 20 ∧
      (∀ (interval : ℚ) (samplerate : Nat), 0 ≤ double_sum interval samplerate →
        double_sum interval samplerate < (SIZE_MOD : ℚ) →
        (frames_needed interval samplerate : ℚ) ≤ double_sum interval samplerate ∧
          double_sum interval samplerate < (frames_needed interval samplerate : ℚ) + 1) ∧
      frames_needed (parse_interval (counting_lib 2)
          (plain_gd (fun _ => plain_file "a.wav" []) 0 0) "-m" (1 / 2 ^ 20)).2.interval 48000
        = 0 ∧
      (∃ st1 x, interval_iteration (counting_lib 2) (parse_interval (counting_lib 2)
          (plain_gd (fun _ => plain_file "a.wav" []) 0 0) "-m" (1 / 2 ^ 20)).2.mode 0
          ⟨0, [], 1024, 0⟩ =
        (outcome.next ⟨st1, [], 1024, 0⟩,
          [dump_event.add_frames 0 0 1024 0 0, dump_event.reading x])) ∧
      (∀ fuel, (interval_chunk (counting_lib 2) (parse_interval (counting_lib 2)
          (plain_gd (fun _ => plain_file "a.wav" []) 0 0) "-m" (1 / 2 ^ 20)).2.mode 0 fuel
          ⟨0, [], 1024, 0⟩).1 = outcome.out_of_fuel) ∧
      (∀ mode F c, c < F →
        (∀ s1, (interval_iteration (counting_lib 2) mode F ⟨0, [], 1024, c⟩).1
            = outcome.next s1 → s1.nr_frames_read < 1024) ∧
        (∀ fuel, 1024 ≤ fuel →
          (interval_chunk (counting_lib 2) mode F fuel ⟨0, [], 1024, c⟩).1
            ≠ outcome.out_of_fuel))) :=
  ⟨by norm_num, by norm_num,
    zero_length_window (counting_lib 2) (plain_gd (fun _ => plain_file "a.wav" []) 0 0)
      "-m" (1 / 2 ^ 20) 48000 0 [] 1024 rfl (Or.inl rfl) (by norm_num) (by norm_num)
      (by norm_num) (fun _ _ _ => rfl) (by decide) (by simp [SIZE_MOD])⟩

/-- Witness of C6: a second file met with the counter at 100, the parameter
change returning 0. -/
theorem interval_file_parameter_change_witness :
    (plain_file "b.wav" [(10, [])]).open_file = 0 ∧
      (((counting_lib 0).change_parameters 0 (plain_file "b.wav" [(10, [])]).get_channels
          (plain_file "b.wav" [(10, [])]).get_samplerate).2 = 0 →
        ∀ ev, (interval_file (counting_lib 0) 1 1 10 (plain_file "b.wav" [(10, [])])
            ⟨some 0, 100, 0⟩).2.head? = some ev →
          ∃ F n k r, ev = dump_event.add_frames 0 F n k r) ∧
      (((counting_lib 0).change_parameters 0 (plain_file "b.wav" [(10, [])]).get_channels
          (plain_file "b.wav" [(10, [])]).get_samplerate).2 ≠ 0 →
        ∀ ev, (interval_file (counting_lib 0) 1 1 10 (plain_file "b.wav" [(10, [])])
            ⟨some 0, 100, 0⟩).2.head? = some ev →
          ∃ F n k r, ev = dump_event.add_frames
            (⟨some 0, 100, 0⟩ : dump_state Nat).frames_counter F n k r) :=
  ⟨rfl, interval_file_parameter_change (counting_lib 0) 1 1 10 (plain_file "b.wav" [(10, [])])
    ⟨some 0, 100, 0⟩ 0 rfl rfl⟩

/-- Witness of C8: the unset mode 0 with the mode constants 1, 3 and 5. -/
theorem invalid_mode_silent_witness :
    ¬ valid_mode (counting_lib 2)
        (plain_gd (fun _ => plain_file "a.wav" [(48000, [])]) 1 0).mode ∧
      (emissions (interval_loudness (counting_lib 2) 0 2
        (plain_gd (fun _ => plain_file "a.wav" [(48000, [])]) 1 0) 2).2 = 0 ∧
      (∀ f s, nothing_after_invalid
        (interval_file (counting_lib 2)
          (plain_gd (fun _ => plain_file "a.wav" [(48000, [])]) 1 0).interval
          (plain_gd (fun _ => plain_file "a.wav" [(48000, [])]) 1 0).mode 2 f s).2 = true) ∧
      (∀ (gd0 : gain_data Nat) (name1 name2 : String) (v1 v2 : ℚ),
        (parse_interval (counting_lib 2) gd0 name1 v1).1 = true →
        parse_interval (counting_lib 2) (parse_interval (counting_lib 2) gd0 name1 v1).2
            name2 v2
          = (false, (parse_interval (counting_lib 2) gd0 name1 v1).2))) :=
  ⟨by simp [valid_mode, plain_gd, counting_lib],
    invalid_mode_silent (counting_lib 2) 0 2
      (plain_gd (fun _ => plain_file "a.wav" [(48000, [])]) 1 0) 2
      (by simp [valid_mode, plain_gd, counting_lib]) (by decide) (by decide) (by decide)⟩

/-- Witness of C5: four samples of a stereo stream read as one chunk of two
frames or as two chunks of one frame. -/
theorem peak_chunk_split_invariant_witness :
    (∀ r ∈ [((2 : Nat), ([1 / 2, -3 / 4, 1 / 4, 0] : List ℚ))], r.1 ≠ 0) ∧
      ((gain_reads (counting_lib 2) true [(2, [1 / 2, -3 / 4, 1 / 4, 0])] 0 0 0).peak
        = ([((2 : Nat), ([1 / 2, -3 / 4, 1 / 4, 0] : List ℚ))].flatMap
            (chunk_samples ((counting_lib 2).channels 0))).foldl (fun p x => max p |x|) 0 ∧
      ([((2 : Nat), ([1 / 2, -3 / 4, 1 / 4, 0] : List ℚ))].flatMap
            (chunk_samples ((counting_lib 2).channels 0))
          = [((1 : Nat), ([1 / 2, -3 / 4] : List ℚ)), (1, [1 / 4, 0])].flatMap
            (chunk_samples ((counting_lib 2).channels 0)) →
        (gain_reads (counting_lib 2) true [(2, [1 / 2, -3 / 4, 1 / 4, 0])] 0 0 0).peak
          = (gain_reads (counting_lib 2) true [(1, [1 / 2, -3 / 4]), (1, [1 / 4, 0])]
              0 0 0).peak)) :=
  ⟨by simp,
    peak_chunk_split_invariant (counting_lib 2) (fun _ _ _ => rfl) (fun _ _ _ => rfl)
      [(2, [1 / 2, -3 / 4, 1 / 4, 0])] [(1, [1 / 2, -3 / 4]), (1, [1 / 4, 0])] 0
      (by simp) (by simp)⟩

/-- Witness of C3: two files run in the order 1, 0; file 1 cannot be opened,
file 0 is analysed and its slot holds the measured loudness. -/
theorem job_isolation_witness :
    [1, 0].Perm (List.range 2) ∧ (one_unreadable 1).open_file ≠ 0 ∧
      slot (run_pool (counting_lib 2) [1, 0] (tagging_gd one_unreadable)) 0
          = slot (calculate_gain_of_file (counting_lib 2) (tagging_gd one_unreadable) 0) 0 ∧
      (run_pool (counting_lib 2) [1, 0] (tagging_gd one_unreadable)).segment_loudness 0 =
        (counting_lib 2).loudness_global (gain_reads (counting_lib 2)
          (tagging_gd one_unreadable).tag_rg
          ((tagging_gd one_unreadable).file_names 0).read_frames
          (channel_map_fallback (counting_lib 2)
            (((tagging_gd one_unreadable).file_names 0).set_channel_map 0).2
            (((tagging_gd one_unreadable).file_names 0).set_channel_map 0).1) 0 0).st :=
  ⟨List.Perm.swap 0 1 [], by decide,
    (job_isolation (counting_lib 2) (tagging_gd one_unreadable) [1, 0] 2 0
      (List.Perm.swap 0 1 []) (by decide)).1,
    (job_isolation (counting_lib 2) (tagging_gd one_unreadable) [1, 0] 2 0
      (List.Perm.swap 0 1 []) (by decide)).2.2 0 rfl rfl rfl rfl⟩

/-- Witness of C4: one file, tagging requested, the gate open. -/
theorem replaygain_formula_witness :
    all_states (run_pool (counting_lib 2) [0]
        (tagging_gd (fun _ => plain_file "a.wav" [(1, [1 / 2, -3 / 4])]))) 1 = true ∧
      scan_event.set_rg_info
          ((run_pool (counting_lib 2) [0]
            (tagging_gd (fun _ => plain_file "a.wav" [(1, [1 / 2, -3 / 4])]))).file_names 0).name
          (double.sub (double.val (-18)) ((run_pool (counting_lib 2) [0]
            (tagging_gd (fun _ => plain_file "a.wav" [(1, [1 / 2, -3 / 4])]))).segment_loudness 0))
          ((run_pool (counting_lib 2) [0]
            (tagging_gd (fun _ => plain_file "a.wav" [(1, [1 / 2, -3 / 4])]))).segment_peaks 0) 1
          (double.sub (double.val (-18)) ((counting_lib 2).loudness_global_multiple
            ((List.range 1).filterMap (run_pool (counting_lib 2) [0]
              (tagging_gd (fun _ => plain_file "a.wav" [(1, [1 / 2, -3 / 4])]))).library_states)))
          (global_peak (run_pool (counting_lib 2) [0]
            (tagging_gd (fun _ => plain_file "a.wav" [(1, [1 / 2, -3 / 4])]))) 1)
        ∈ (loudness_or_lra (counting_lib 2) 0 [0]
          (tagging_gd (fun _ => plain_file "a.wav" [(1, [1 / 2, -3 / 4])])) 1).2.2 :=
  ⟨by simp [all_states, run_pool, calculate_gain_of_file, tagging_gd, plain_file, counting_lib,
      gain_reads, channel_map_fallback, List.range, List.range.loop],
    ((replaygain_formula (counting_lib 2) 0 [0]
      (tagging_gd (fun _ => plain_file "a.wav" [(1, [1 / 2, -3 / 4])])) 1).2.2.1 rfl
      (by simp [all_states, run_pool, calculate_gain_of_file, tagging_gd, plain_file,
        counting_lib, gain_reads, channel_map_fallback, List.range, List.range.loop])
      (by simp [run_pool, calculate_gain_of_file, tagging_gd, plain_file,
        counting_lib, gain_reads, channel_map_fallback]) 0 (by decide)).2⟩

end Scanner
